import Mathlib

/-!
Verification of the cieft GGUF inference scaffold against its specification.

The development shallowly embeds the relevant C++ sources:

* `ggml_fp16.h`   — `fp16_to_fp32` at the level of 32-bit patterns;
* `reader.h`      — the byte cursor with its `size_t` bounds checks
                    (the additions in those checks wrap modulo 2^64, exactly
                    as `size_t` arithmetic does on the LP64 target);
* `gguf.cpp/.h`   — value parsing, the metadata/tensor loops with their
                    `unordered_map::emplace` index building, `tensor_nbytes`,
                    and the final bounds checks of `parse`;
* `gguf_loader.cpp` — the offset-difference size estimator of the
                    `GGUFLoader` constructor (sort by offset, then adjacent
                    differences);
* `dequant_q4_k.cpp`, `dequant_q6_k.cpp`, `ggml_quants.h` — the block
                    dequantizers, with float arithmetic modelled over `ℚ`
                    and the `assert(k % QK_K == 0)` guard modelled as an
                    `InvalidShape` failure;
* `kernels/softmax.h`, `kernels/rope.h`, `layer0.cpp` — the numeric kernels,
                    with `float` modelled by `ℚ` (softmax, parameterised by
                    the exponential so that underflow-to-zero regimes are
                    expressible) or `ℝ` (RoPE, attention).

Machine integers are `Nat` with explicit `% 2^64` where the source can wrap.
-/

namespace Cieft

/-! ## Section 1: fp16 decoding (ggml_fp16.h) -/

/-- Normalization loop of the subnormal branch of `fp16_to_fp32`: shift the
mantissa left until its implicit bit sits at bit 10, decrementing the exponent
each step.  The C++ `while` loop runs at most 10 times for a nonzero 10-bit
mantissa; the structural fuel of 16 used at the call site covers the whole
reachable domain. -/
def fp16Normalize : Nat → Nat → Nat → Nat × Nat
  | 0, mant, exp => (mant, exp)
  | fuel+1, mant, exp =>
    if mant &&& 0x400 = 0 then fp16Normalize fuel (mant <<< 1) (exp - 1)
    else (mant, exp)

/-- `fp16_to_fp32` from `ggml_fp16.h`, at the level of bit patterns: 16-bit
half bits in, 32-bit single bits out (the C++ ends with a `bit_cast` to
`float`, which does not change the bits). -/
def fp16_to_fp32 (h : Nat) : Nat :=
  let sign := (h &&& 0x8000) <<< 16
  let exp := (h &&& 0x7C00) >>> 10
  let mant := h &&& 0x03FF
  if exp = 0 then
    if mant = 0 then sign
    else
      let me := fp16Normalize 16 mant 113
      sign ||| (me.2 <<< 23) ||| ((me.1 &&& 0x03FF) <<< 13)
  else if exp = 31 then sign ||| 0x7F800000 ||| (mant <<< 13)
  else sign ||| ((exp + 112) <<< 23) ||| (mant <<< 13)

/-- IEEE-754 reference semantics: magnitude of a finite binary32 bit pattern
in units of 2^(-149) (the smallest positive subnormal), as a `Nat`.  Only
meaningful for exponent fields below 255 (the finite range). -/
def f32MagUnits (b : Nat) : Nat :=
  let e := (b >>> 23) &&& 255
  let m := b &&& 0x7FFFFF
  if e = 0 then m else (2 ^ 23 + m) * 2 ^ (e - 1)

/-- IEEE-754 reference semantics: magnitude of a finite binary16 bit pattern
in units of 2^(-149), as a `Nat`. -/
def f16MagUnits (h : Nat) : Nat :=
  let e := (h >>> 10) &&& 31
  let m := h &&& 0x3FF
  if e = 0 then m * 2 ^ 125 else (2 ^ 10 + m) * 2 ^ (e + 124)

/-- The IEEE-754 correctness statement for one half-precision input `h`:
a NaN maps to a NaN, an infinity to the same-signed infinity, and every
finite input (zeros, subnormals, normals) maps to a bit pattern of exactly
the same real value and the same sign bit (so signed zero is preserved). -/
def decodeOk (h : Nat) : Prop :=
  let b := fp16_to_fp32 h
  let e16 := (h >>> 10) &&& 31
  let m16 := h &&& 0x3FF
  if e16 = 31 then
    if m16 = 0 then b = ((h >>> 15) <<< 31) ||| 0x7F800000
    else ((b >>> 23) &&& 255 = 255) ∧ (b &&& 0x7FFFFF ≠ 0)
  else
    ((b >>> 23) &&& 255 ≠ 255) ∧ f32MagUnits b = f16MagUnits h ∧ b >>> 31 = h >>> 15

/-- Exact rational value of a finite binary32 bit pattern.  This is how the
dequantizer model interprets the `float` values produced by `fp16_to_fp32`;
it is only applied to finite patterns. -/
def f32ValQ (b : Nat) : ℚ :=
  let mag : ℚ := (f32MagUnits b : ℚ) / 2 ^ 149
  if b >>> 31 = 1 then -mag else mag

/-- The value of a half, read through the code path `fp16_to_fp32` and the
rational interpretation of the resulting single. -/
def f16ValQ (h : Nat) : ℚ := f32ValQ (fp16_to_fp32 h)

/-! ## Section 2: byte reader (reader.h) -/

/-- `2^64`; `uint64_t` and `size_t` both have this modulus on the target. -/
def U64 : Nat := 2 ^ 64

/-- Error kinds.  Each constructor corresponds to one family of
`throw std::runtime_error` sites in the source; the comment gives the C++
message text. -/
inductive Err where
  | PastEOF                 -- "read past EOF" / "read_bytes past EOF" / "skip past EOF"
  | StringPastEOF           -- "string past EOF"
  | SkipTooLarge            -- "skip too large" (gguf.cpp skip_u64)
  | BadMagic                -- "not a GGUF file (bad magic)"
  | ArithmeticOverflow      -- "array skip overflow" (read_value)
  | UnsupportedArrayOfArray -- "array-of-array not supported in gguf"
  | UnknownValueType        -- "unknown gguf value type"
  | UnknownArrayElemType    -- "unknown gguf array element type"
  | OutOfBounds             -- "data section offset out of bounds"
  | TensorOffsetOOB         -- "tensor offset out of bounds: <name>"
  | TensorOOB               -- "tensor out of bounds: <name>"
  | AddOverflow             -- "u64 overflow" (gguf_loader.cpp checked_add_u64)
  | NonMonotonicOffsets     -- "tensor offsets not monotonic"
  | InvalidShape            -- assert / "Q4_K row_len not multiple of 256"
  | InvalidDim              -- "rope_dim ..." guards in rope.h
  deriving Repr, DecidableEq

instance {e a : Type} [DecidableEq e] [DecidableEq a] : DecidableEq (Except e a) := fun x y =>
  match x, y with
  | .error u, .error v =>
    if h : u = v then .isTrue (by rw [h]) else .isFalse (by intro hc; cases hc; exact h rfl)
  | .ok u, .ok v =>
    if h : u = v then .isTrue (by rw [h]) else .isFalse (by intro hc; cases hc; exact h rfl)
  | .error _, .ok _ => .isFalse (by intro hc; cases hc)
  | .ok _, .error _ => .isFalse (by intro hc; cases hc)

/-- The byte cursor of `reader.h`: `{base, size, pos}` over an immutable byte
slice.  Bytes are `Nat`s below 256. -/
structure Reader where
  data : List Nat
  size : Nat
  pos : Nat
  deriving Repr, DecidableEq

def Reader.byteAt (r : Reader) (i : Nat) : Nat := r.data.getD i 0

/-- `Reader::read` / `Reader::read_bytes`: check `pos_ + n > size_` (a
`size_t` sum, hence the `% 2^64`), copy out `n` bytes, advance. -/
def Reader.readBytes (r : Reader) (n : Nat) : Except Err (List Nat × Reader) :=
  if (r.pos + n) % U64 > r.size then .error .PastEOF
  else .ok (((List.range n).map fun i => r.byteAt (r.pos + i)),
    { r with pos := (r.pos + n) % U64 })

/-- `Reader::skip`: `if (pos_ + n > size_) throw; pos_ += n` — both the
comparison and the update are `size_t` arithmetic and wrap modulo 2^64. -/
def Reader.skip (r : Reader) (n : Nat) : Except Err Reader :=
  if (r.pos + n) % U64 > r.size then .error .PastEOF
  else .ok { r with pos := (r.pos + n) % U64 }

/-- Little-endian value of a byte list (first byte least significant). -/
def leNat (bs : List Nat) : Nat := bs.foldr (fun b acc => b % 256 + 256 * acc) 0

def Reader.readU8 (r : Reader) : Except Err (Nat × Reader) :=
  match r.readBytes 1 with
  | .error e => .error e
  | .ok (bs, r') => .ok (leNat bs, r')

def Reader.readU16 (r : Reader) : Except Err (Nat × Reader) :=
  match r.readBytes 2 with
  | .error e => .error e
  | .ok (bs, r') => .ok (leNat bs, r')

def Reader.readU32 (r : Reader) : Except Err (Nat × Reader) :=
  match r.readBytes 4 with
  | .error e => .error e
  | .ok (bs, r') => .ok (leNat bs, r')

def Reader.readU64 (r : Reader) : Except Err (Nat × Reader) :=
  match r.readBytes 8 with
  | .error e => .error e
  | .ok (bs, r') => .ok (leNat bs, r')

/-- `Reader::read_string`: u64 length prefix, then that many raw bytes.
`size_ - pos_` does not underflow because `pos_ ≤ size_` is an invariant of
every successful operation. -/
def Reader.read_string (r : Reader) : Except Err (List Nat × Reader) :=
  match r.readU64 with
  | .error e => .error e
  | .ok (len, r1) =>
    if len > r1.size - r1.pos then .error .StringPastEOF
    else .ok (((List.range len).map fun i => r1.byteAt (r1.pos + i)),
      { r1 with pos := r1.pos + len })

/-- `align_up` from reader.h; the sum `v + (a - r)` is `size_t` arithmetic. -/
def align_up (v a : Nat) : Nat :=
  if a = 0 then v
  else if v % a = 0 then v else (v + (a - v % a)) % U64

/-! ## Section 3: GGUF parsing (gguf.h, gguf.cpp) -/

/-- `mul_overflow_u64`: `none` on overflow, following the source's
`a > max / b` early-out with the zero shortcut. -/
def mul_overflow_u64 (a b : Nat) : Option Nat :=
  if a = 0 ∨ b = 0 then some 0
  else if a > (U64 - 1) / b then none
  else some (a * b)

/-- `add_overflow_u64`: `none` on overflow. -/
def add_overflow_u64 (a b : Nat) : Option Nat :=
  if a > (U64 - 1) - b then none else some (a + b)

/-- `skip_u64` from gguf.cpp: the guard `nbytes > SIZE_MAX` is vacuous on the
LP64 target (`SIZE_MAX = 2^64 - 1`), then `Reader::skip`. -/
def skip_u64 (r : Reader) (n : Nat) : Except Err Reader :=
  if n > U64 - 1 then .error .SkipTooLarge else r.skip n

/-- The 13 GGUF value payloads.  Integer payloads are bit-exact; float
payloads are kept as bit patterns; array payloads are summarised as
element type plus length, exactly as in `gguf.h`. -/
inductive GValue where
  | u8 (v : Nat)
  | i8 (v : Int)
  | u16 (v : Nat)
  | i16 (v : Int)
  | u32 (v : Nat)
  | i32 (v : Int)
  | u64 (v : Nat)
  | i64 (v : Int)
  | f32bits (v : Nat)
  | f64bits (v : Nat)
  | boolean (v : Bool)
  | str (s : List Nat)
  | arr (elemType : Nat) (len : Nat)
  deriving Repr, DecidableEq

/-- Two's complement reading of an unsigned value of the given bit width. -/
def toSigned (bits n : Nat) : Int :=
  if n < 2 ^ (bits - 1) then (n : Int) else (n : Int) - 2 ^ bits

/-- Skipping `n` length-prefixed strings (the array-of-strings case of
`read_value`). -/
def skipStrings : Nat → Reader → Except Err Reader
  | 0, r => .ok r
  | n+1, r =>
    match r.read_string with
    | .error e => .error e
    | .ok (_, r') => skipStrings n r'

/-- The array-payload part of `read_value`: advance the cursor over `n`
elements of the given element type, with overflow-checked byte counts for
the 2-, 4- and 8-byte element types. -/
def skipArrayPayload (r : Reader) (elemType n : Nat) : Except Err Reader :=
  match elemType with
  | 8 => skipStrings n r
  | 0 => skip_u64 r n
  | 1 => skip_u64 r n
  | 7 => skip_u64 r n
  | 2 =>
    match mul_overflow_u64 n 2 with
    | none => .error .ArithmeticOverflow
    | some bytes => skip_u64 r bytes
  | 3 =>
    match mul_overflow_u64 n 2 with
    | none => .error .ArithmeticOverflow
    | some bytes => skip_u64 r bytes
  | 4 =>
    match mul_overflow_u64 n 4 with
    | none => .error .ArithmeticOverflow
    | some bytes => skip_u64 r bytes
  | 5 =>
    match mul_overflow_u64 n 4 with
    | none => .error .ArithmeticOverflow
    | some bytes => skip_u64 r bytes
  | 6 =>
    match mul_overflow_u64 n 4 with
    | none => .error .ArithmeticOverflow
    | some bytes => skip_u64 r bytes
  | 10 =>
    match mul_overflow_u64 n 8 with
    | none => .error .ArithmeticOverflow
    | some bytes => skip_u64 r bytes
  | 11 =>
    match mul_overflow_u64 n 8 with
    | none => .error .ArithmeticOverflow
    | some bytes => skip_u64 r bytes
  | 12 =>
    match mul_overflow_u64 n 8 with
    | none => .error .ArithmeticOverflow
    | some bytes => skip_u64 r bytes
  | 9 => .error .UnsupportedArrayOfArray
  | _ => .error .UnknownArrayElemType

/-- `read_value` from gguf.cpp.  Value-type codes follow the `ValueType`
enum: 0=u8, 1=i8, 2=u16, 3=i16, 4=u32, 5=i32, 6=f32, 7=bool, 8=string,
9=array, 10=u64, 11=i64, 12=f64. -/
def read_value (r : Reader) (t : Nat) : Except Err (GValue × Reader) :=
  match t with
  | 0 =>
    match r.readU8 with
    | .error e => .error e
    | .ok (v, r') => .ok (.u8 v, r')
  | 1 =>
    match r.readU8 with
    | .error e => .error e
    | .ok (v, r') => .ok (.i8 (toSigned 8 v), r')
  | 2 =>
    match r.readU16 with
    | .error e => .error e
    | .ok (v, r') => .ok (.u16 v, r')
  | 3 =>
    match r.readU16 with
    | .error e => .error e
    | .ok (v, r') => .ok (.i16 (toSigned 16 v), r')
  | 4 =>
    match r.readU32 with
    | .error e => .error e
    | .ok (v, r') => .ok (.u32 v, r')
  | 5 =>
    match r.readU32 with
    | .error e => .error e
    | .ok (v, r') => .ok (.i32 (toSigned 32 v), r')
  | 6 =>
    match r.readU32 with
    | .error e => .error e
    | .ok (v, r') => .ok (.f32bits v, r')
  | 7 =>
    match r.readU8 with
    | .error e => .error e
    | .ok (v, r') => .ok (.boolean (v ≠ 0), r')
  | 8 =>
    match r.read_string with
    | .error e => .error e
    | .ok (s, r') => .ok (.str s, r')
  | 9 =>
    match r.readU32 with
    | .error e => .error e
    | .ok (elemType, r1) =>
      match r1.readU64 with
      | .error e => .error e
      | .ok (n, r2) =>
        match skipArrayPayload r2 elemType n with
        | .error e => .error e
        | .ok r3 => .ok (.arr elemType n, r3)
  | 10 =>
    match r.readU64 with
    | .error e => .error e
    | .ok (v, r') => .ok (.u64 v, r')
  | 11 =>
    match r.readU64 with
    | .error e => .error e
    | .ok (v, r') => .ok (.i64 (toSigned 64 v), r')
  | 12 =>
    match r.readU64 with
    | .error e => .error e
    | .ok (v, r') => .ok (.f64bits v, r')
  | _ => .error .UnknownValueType

/-- A metadata entry. -/
structure KV where
  key : List Nat
  value : GValue
  deriving Repr, DecidableEq

instance : Inhabited KV := ⟨⟨[], .u8 0⟩⟩

/-- A tensor-directory entry. -/
structure TensorInfo where
  name : List Nat
  dims : List Nat
  ggml_type : Nat
  offset : Nat
  deriving Repr, DecidableEq, Inhabited

/-- The parsed `File`: header fields, metadata in parse order, tensors in
parse order, data-section offset, and the two name indexes (association
lists; `std::unordered_map` ordering is irrelevant to lookup results). -/
structure File where
  version : Nat
  tensor_count : Nat
  metadata_kv_count : Nat
  metadata : List KV
  tensors : List TensorInfo
  data_section_offset : Nat
  tensor_index_by_name : List (List Nat × Nat)
  kv_index_by_key : List (List Nat × Nat)
  deriving Repr, DecidableEq

/-- `std::unordered_map::emplace`: inserts only when the key is absent, so a
duplicate key leaves the existing (earlier) entry in place. -/
def emplaceIdx (idx : List (List Nat × Nat)) (k : List Nat) (v : Nat) :
    List (List Nat × Nat) :=
  if (idx.lookup k).isSome then idx else idx ++ [(k, v)]

/-- The metadata loop of `parse`: read key, type and value `count` times,
appending to the vector and emplacing `(key, vector position)` into the
index. -/
def parseKVs : Nat → Reader → List KV → List (List Nat × Nat) →
    Except Err (List KV × List (List Nat × Nat) × Reader)
  | 0, r, md, idx => .ok (md, idx, r)
  | n+1, r, md, idx =>
    match r.read_string with
    | .error e => .error e
    | .ok (key, r1) =>
      match r1.readU32 with
      | .error e => .error e
      | .ok (t, r2) =>
        match read_value r2 t with
        | .error e => .error e
        | .ok (v, r3) => parseKVs n r3 (md ++ [⟨key, v⟩]) (emplaceIdx idx key md.length)

/-- The dims loop inside the tensor directory: `n_dims` u64 reads. -/
def readDims : Nat → Reader → List Nat → Except Err (List Nat × Reader)
  | 0, r, acc => .ok (acc, r)
  | n+1, r, acc =>
    match r.readU64 with
    | .error e => .error e
    | .ok (d, r1) => readDims n r1 (acc ++ [d])

/-- The tensor-directory loop of `parse`. -/
def parseTensors : Nat → Reader → List TensorInfo → List (List Nat × Nat) →
    Except Err (List TensorInfo × List (List Nat × Nat) × Reader)
  | 0, r, ts, idx => .ok (ts, idx, r)
  | n+1, r, ts, idx =>
    match r.read_string with
    | .error e => .error e
    | .ok (name, r1) =>
      match r1.readU32 with
      | .error e => .error e
      | .ok (ndims, r2) =>
        match readDims ndims r2 [] with
        | .error e => .error e
        | .ok (dims, r3) =>
          match r3.readU32 with
          | .error e => .error e
          | .ok (ty, r4) =>
            match r4.readU64 with
            | .error e => .error e
            | .ok (off, r5) =>
              parseTensors n r5 (ts ++ [⟨name, dims, ty, off⟩]) (emplaceIdx idx name ts.length)

/-- `ggml_type_traits`: `(block_size, type_size)` for the supported type
codes, `none` otherwise. -/
def ggml_type_traits (t : Nat) : Option (Nat × Nat) :=
  match t with
  | 0 => some (1, 4)     -- F32
  | 1 => some (1, 2)     -- F16
  | 12 => some (256, 144) -- Q4_K
  | 14 => some (256, 210) -- Q6_K
  | _ => none

/-- `tensor_nbytes` from gguf.cpp: block count along dim0 (rounded up for
block types, with the source's saturation check), multiplied by the trailing
dims and then by the type size, every product overflow-checked; `none` both
for unknown types and for overflow. -/
def tensor_nbytes (t : TensorInfo) : Option Nat :=
  match ggml_type_traits t.ggml_type with
  | none => none
  | some (bs, ts) =>
    if t.dims = [] then some 0
    else
      let d0 := t.dims.headD 0
      let blocksDim0 : Option Nat :=
        if bs = 1 then some d0
        else
          let b := d0 / bs
          if d0 % bs ≠ 0 then
            if b = U64 - 1 then none else some (b + 1)
          else some b
      match blocksDim0 with
      | none => none
      | some nb0 =>
        match t.dims.tail.foldl
            (fun acc d => match acc with
              | none => none
              | some n => mul_overflow_u64 n d) (some nb0) with
        | none => none
        | some nblocks => mul_overflow_u64 nblocks ts

def kDefaultAlignment : Nat := 32

/-- Byte text of the metadata key "general.alignment". -/
def gaKey : List Nat :=
  [103, 101, 110, 101, 114, 97, 108, 46, 97, 108, 105, 103, 110, 109, 101, 110, 116]

/-- Alignment coercion in `parse`: default 32; a u32 payload is used as is; a
u64 payload is used when it fits in u32. -/
def alignmentOf (md : List KV) (idx : List (List Nat × Nat)) : Nat :=
  match idx.lookup gaKey with
  | none => kDefaultAlignment
  | some i =>
    match (md.getD i default).value with
    | .u32 a => a
    | .u64 a => if a ≤ 2 ^ 32 - 1 then a else kDefaultAlignment
    | _ => kDefaultAlignment

/-- The per-tensor bounds checks at the end of `parse`: absolute offset is
the overflow-checked sum of the data-section offset and the relative offset
and must lie in the file; when `tensor_nbytes` yields a size, the end of the
tensor must also lie in the file — when it yields `none` (unknown type OR
overflow) the check is skipped. -/
def checkTensors (dso size : Nat) : List TensorInfo → Except Err Unit
  | [] => .ok ()
  | t :: rest =>
    match add_overflow_u64 dso t.offset with
    | none => .error .TensorOffsetOOB
    | some absOff =>
      if absOff > size then .error .TensorOffsetOOB
      else
        match tensor_nbytes t with
        | some nb =>
          match add_overflow_u64 absOff nb with
          | none => .error .TensorOOB
          | some en => if en > size then .error .TensorOOB else checkTensors dso size rest
        | none => checkTensors dso size rest

/-- `parse` from gguf.cpp: magic, header, metadata loop, tensor loop,
alignment, data-section offset, bounds checks. -/
def parse (data : List Nat) : Except Err File :=
  let r0 : Reader := ⟨data, data.length, 0⟩
  match r0.readBytes 4 with
  | .error e => .error e
  | .ok (magic, r1) =>
    if magic ≠ [71, 71, 85, 70] then .error .BadMagic
    else
      match r1.readU32 with
      | .error e => .error e
      | .ok (version, r2) =>
        match r2.readU64 with
        | .error e => .error e
        | .ok (tc, r3) =>
          match r3.readU64 with
          | .error e => .error e
          | .ok (mc, r4) =>
            match parseKVs mc r4 [] [] with
            | .error e => .error e
            | .ok (md, kvIdx, r5) =>
              match parseTensors tc r5 [] [] with
              | .error e => .error e
              | .ok (ts, tIdx, r6) =>
                let dso := align_up r6.pos (alignmentOf md kvIdx)
                if dso > data.length then .error .OutOfBounds
                else
                  match checkTensors dso data.length ts with
                  | .error e => .error e
                  | .ok _ => .ok ⟨version, tc, mc, md, ts, dso, tIdx, kvIdx⟩

/-- Position of the first metadata entry with the given key (reference
definition used to state which entry the lookup index selects). -/
def keyFirstIdx : List KV → List Nat → Option Nat
  | [], _ => none
  | e :: rest, k =>
    if e.key = k then some 0 else (keyFirstIdx rest k).map (· + 1)

/-- Position of the first tensor-directory entry with the given name
(reference definition used to state which entry the name index selects). -/
def nameFirstIdx : List TensorInfo → List Nat → Option Nat
  | [], _ => none
  | e :: rest, k =>
    if e.name = k then some 0 else (nameFirstIdx rest k).map (· + 1)

/-! ## Section 4: loader size-from-offsets estimator (gguf_loader.cpp) -/

/-- `checked_add_u64` from gguf_loader.cpp (throwing flavour). -/
def checked_add_u64 (a b : Nat) : Except Err Nat :=
  if a > (U64 - 1) - b then .error .AddOverflow else .ok (a + b)

/-- Insertion step of the index sort (model of `std::sort` with the
comparator `tensors[a].offset < tensors[b].offset`). -/
def insertByOffset (tensors : List TensorInfo) (x : Nat) : List Nat → List Nat
  | [] => [x]
  | y :: ys =>
    if (tensors.getD x default).offset < (tensors.getD y default).offset
    then x :: y :: ys
    else y :: insertByOffset tensors x ys

/-- Sorting the index vector `idx` ascending by tensor offset. -/
def sortByOffset (tensors : List TensorInfo) : List Nat → List Nat
  | [] => []
  | x :: xs => insertByOffset tensors x (sortByOffset tensors xs)

/-- The size-assignment loop of the `GGUFLoader` constructor, running over
the offset-sorted index list: each tensor's size is the gap to the next
sorted absolute offset (the last one runs to the file size), with the
monotonicity re-check `next_abs < cur_abs` of the source. -/
def loaderLoop (tensors : List TensorInfo) (dso size : Nat) :
    List Nat → List Nat → Except Err (List Nat)
  | [], sizes => .ok sizes
  | cur :: rest, sizes =>
    match checked_add_u64 dso (tensors.getD cur default).offset with
    | .error e => .error e
    | .ok curAbs =>
      match (match rest with
             | [] => Except.ok size
             | nxt :: _ => checked_add_u64 dso (tensors.getD nxt default).offset) with
      | .error e => .error e
      | .ok nextAbs =>
        if nextAbs < curAbs then .error .NonMonotonicOffsets
        else loaderLoop tensors dso size rest (sizes.set cur (nextAbs - curAbs))

/-- `tensor_size_from_offsets_` as computed by the `GGUFLoader` constructor
given the parsed tensor list, the data-section offset and the file size. -/
def tensor_size_from_offsets (tensors : List TensorInfo) (dso size : Nat) :
    Except Err (List Nat) :=
  loaderLoop tensors dso size (sortByOffset tensors (List.range tensors.length))
    (List.replicate tensors.length 0)

/-- File-order monotonicity of the tensor offsets (the property the claim
speaks about). -/
def offsetsNondecreasing (tensors : List TensorInfo) : Prop :=
  List.Chain' (fun a b => a.offset ≤ b.offset) tensors

/-! ## Section 5: block dequantizers (ggml_quants.h, dequant_q4_k.cpp,
dequant_q6_k.cpp), float arithmetic over `ℚ` -/

def QK_K : Nat := 256

/-- `block_q4_K`: two f16 scale factors (bit patterns), 12 packed scale
bytes, 128 packed nibble bytes. -/
structure block_q4_K where
  d : Nat
  dmin : Nat
  scales : List Nat
  qs : List Nat
  deriving Repr, DecidableEq

instance : Inhabited block_q4_K := ⟨⟨0, 0, [], []⟩⟩

/-- `get_scale_min_k4` from dequant_q4_k.cpp. -/
def get_scale_min_k4 (j : Nat) (q : List Nat) : Nat × Nat :=
  if j < 4 then (q.getD j 0 &&& 63, q.getD (j + 4) 0 &&& 63)
  else ((q.getD (j + 4) 0 &&& 0xF) ||| ((q.getD (j - 4) 0 >>> 6) <<< 4),
        (q.getD (j + 4) 0 >>> 4) ||| ((q.getD j 0 >>> 6) <<< 4))

/-- One 256-element Q4_K block: four 64-element groups, each with a
low-nibble half and a high-nibble half over the same 32 source bytes;
`y = d·sc·nibble − dmin·m`. -/
def dequantQ4KBlock (b : block_q4_K) : List ℚ :=
  let d := f16ValQ b.d
  let mn := f16ValQ b.dmin
  ((List.range 4).map fun g =>
    let sm1 := get_scale_min_k4 (2 * g) b.scales
    let sm2 := get_scale_min_k4 (2 * g + 1) b.scales
    let d1 := d * (sm1.1 : ℚ)
    let m1 := mn * (sm1.2 : ℚ)
    let d2 := d * (sm2.1 : ℚ)
    let m2 := mn * (sm2.2 : ℚ)
    ((List.range 32).map fun l => d1 * ((b.qs.getD (32 * g + l) 0 &&& 0xF : Nat) : ℚ) - m1)
      ++ ((List.range 32).map fun l => d2 * ((b.qs.getD (32 * g + l) 0 >>> 4 : Nat) : ℚ) - m2)).flatten

/-- `dequantize_row_q4_k`: the `assert(k % QK_K == 0)` guard is modelled as
an `InvalidShape` failure (it is also re-checked with an explicit throw by
the only caller, `load_tensor_as_f32`); then `k / 256` blocks are decoded. -/
def dequantize_row_q4_k (x : List block_q4_K) (k : Nat) : Except Err (List ℚ) :=
  if k % QK_K ≠ 0 then .error .InvalidShape
  else .ok (((List.range (k / QK_K)).map fun i => dequantQ4KBlock (x.getD i default)).flatten)

/-- `block_q6_K`: 128 low bytes, 64 high-bit bytes, 16 signed scales, one
f16 scale (bit pattern). -/
structure block_q6_K where
  ql : List Nat
  qh : List Nat
  scales : List Int
  d : Nat
  deriving Repr, DecidableEq

instance : Inhabited block_q6_K := ⟨⟨[], [], [], 0⟩⟩

/-- One 256-element Q6_K block: two 128-element halves; within a half,
output `l + 32·seg` uses scale `scales[is + 2·seg]` and a 6-bit quantity
assembled from a nibble of `ql` and two bits of `qh`, minus 32. -/
def dequantQ6KBlock (b : block_q6_K) : List ℚ :=
  let d := f16ValQ b.d
  ((List.range 2).map fun half =>
    (List.range 128).map fun idx =>
      let seg := idx / 32
      let l := idx % 32
      let is := l / 16
      let qlv := fun j => b.ql.getD (64 * half + j) 0
      let qh := b.qh.getD (32 * half + l) 0
      let sc := b.scales.getD (8 * half + (is + 2 * seg)) 0
      let v : Nat :=
        if seg = 0 then (qlv l &&& 0xF) ||| (((qh >>> 0) &&& 3) <<< 4)
        else if seg = 1 then (qlv (l + 32) &&& 0xF) ||| (((qh >>> 2) &&& 3) <<< 4)
        else if seg = 2 then (qlv l >>> 4) ||| (((qh >>> 4) &&& 3) <<< 4)
        else (qlv (l + 32) >>> 4) ||| (((qh >>> 6) &&& 3) <<< 4)
      d * (sc : ℚ) * (((v : Int) - 32 : Int) : ℚ)).flatten

/-- `dequantize_row_q6_k`, with the `assert(k % QK_K == 0)` guard modelled
as an `InvalidShape` failure exactly as for Q4_K. -/
def dequantize_row_q6_k (x : List block_q6_K) (k : Nat) : Except Err (List ℚ) :=
  if k % QK_K ≠ 0 then .error .InvalidShape
  else .ok (((List.range (k / QK_K)).map fun i => dequantQ6KBlock (x.getD i default)).flatten)

/-- The crafted block of testable property 6 of the spec: `d = 1.0` (half
bits 0x3C00), `dmin = 0`, all scale bytes 1, all nibble bytes 0x10. -/
def c5Block : block_q4_K :=
  ⟨0x3C00, 0, List.replicate 12 1, List.replicate 128 0x10⟩

/-- The expected output pattern: 32 zeros then 32 ones, repeated 4 times. -/
def c5Pattern : List ℚ :=
  (List.replicate 4 (List.replicate 32 (0 : ℚ) ++ List.replicate 32 (1 : ℚ))).flatten

/-! ## Section 6: numeric kernels (kernels/softmax.h, kernels/rope.h,
layer0.cpp) -/

/-- `softmax_inplace_f32` on a nonempty list: running max (the C++ starts
from … negative infinity, which for a nonempty list is the list maximum),
exponentiation by `expF`, and division by the sum — where a non-positive sum
yields the factor 0, exactly as `sum > 0.0 ? 1/sum : 0.0f`.  The
exponential is a parameter so that the float regime in which `exp`
underflows to zero is expressible. -/
def softmaxList {α : Type} [LinearOrderedField α] (expF : α → α) : List α → List α
  | [] => []
  | x0 :: rest =>
    let m := rest.foldl max x0
    let es := (x0 :: rest).map fun v => expF (v - m)
    let s := es.sum
    let inv := if s > 0 then 1 / s else 0
    es.map fun e => e * inv

/-- `softmax_inplace_f32 (x, n)`: `n = 0` returns immediately; otherwise the
first `n` entries are normalised in place and the rest are untouched. -/
def softmax_inplace_f32 {α : Type} [LinearOrderedField α] (expF : α → α)
    (x : List α) (n : Nat) : List α :=
  if n = 0 then x
  else softmaxList expF (x.take n) ++ x.drop n

/-- The pairwise rotation step of `RoPECache::apply_inplace`, functionally:
index `j` belongs to head `j / headDim` at offset `r = j % headDim`; offsets
below `rope_dim` are rotated in pairs `(2i, 2i+1)` by `angle = pos ·
inv_freq[i]`, the rest are untouched. -/
noncomputable def ropeRotate (invFreq : Nat → ℝ) (pos ropeDim headDim nHeads : Nat)
    (x : Nat → ℝ) (j : Nat) : ℝ :=
  let h := j / headDim
  let r := j % headDim
  if h < nHeads ∧ r < ropeDim then
    let angle := (pos : ℝ) * invFreq (r / 2)
    if r % 2 = 0 then x j * Real.cos angle - x (j + 1) * Real.sin angle
    else x (j - 1) * Real.sin angle + x j * Real.cos angle
  else x j

/-- `RoPECache::apply_inplace` including its guards (`rope_dim` nonzero, at
most `head_dim`, even). -/
noncomputable def apply_inplace (invFreq : Nat → ℝ) (ropeDim headDim nHeads pos : Nat)
    (x : Nat → ℝ) : Except Err (Nat → ℝ) :=
  if ropeDim = 0 then .error .InvalidDim
  else if ropeDim > headDim then .error .InvalidDim
  else if ropeDim % 2 ≠ 0 then .error .InvalidDim
  else .ok (ropeRotate invFreq pos ropeDim headDim nHeads x)

/-- `inv_freq[i] = theta ^ (−2i/rope_dim)` as computed by
`RoPECache::reset`. -/
noncomputable def ropeInvFreq (ropeDim : Nat) (theta : ℝ) (i : Nat) : ℝ :=
  theta ^ (-(2 * (i : ℝ) / (ropeDim : ℝ)))

/-- `dot_f32` over real-valued vectors. -/
noncomputable def dotF (n : Nat) (a b : Nat → ℝ) : ℝ :=
  ∑ i ∈ Finset.range n, a i * b i

/-- The grouped-query head routing of `Layer0Context::step`:
`group = n_heads / n_kv_heads; kv_head = h / group`. -/
def kvHeadOf (nHeads nKvHeads h : Nat) : Nat := h / (nHeads / nKvHeads)

/-- The attention computation of `Layer0Context::step` for query head `h`
(source lines 111–131): probabilities `dot(q_h, k[kv_head][t]) / sqrt(hd)`
for `t ≤ pos`, softmax over `pos+1` entries, then the probability-weighted
sum of `v[kv_head][t]`.  The caches are functions `kv_head → pos → index →
value`. -/
noncomputable def attnHeadOut (nHeads nKvHeads headDim pos : Nat) (q : Nat → ℝ)
    (kC vC : Nat → Nat → Nat → ℝ) (h : Nat) : Nat → ℝ :=
  let kvHead := kvHeadOf nHeads nKvHeads h
  let qh := fun i => q (h * headDim + i)
  let invSqrtHd : ℝ := 1 / Real.sqrt (headDim : ℝ)
  let probs0 := (List.range (pos + 1)).map fun t => dotF headDim qh (kC kvHead t) * invSqrtHd
  let probs := softmaxList Real.exp probs0
  fun i => ∑ t ∈ Finset.range (pos + 1), probs.getD t 0 * vC kvHead t i

/-! ## Section 7: concrete inputs for the counterexamples -/

/-- A GGUF file whose metadata table contains the key "a" twice (values u8 7
then u8 9) and whose tensor directory contains the name "t" twice (two F32
tensors with `dims = [1]` at offsets 0 and 4), padded to the 32-byte
data-section alignment and followed by 8 bytes of tensor data. -/
def c1Bytes : List Nat :=
  [71, 71, 85, 70, 3, 0, 0, 0, 2]
    ++ List.replicate 7 0
    ++ [2]
    ++ List.replicate 7 0
    ++ [1]
    ++ List.replicate 7 0
    ++ [97]
    ++ List.replicate 4 0
    ++ [7, 1]
    ++ List.replicate 7 0
    ++ [97]
    ++ List.replicate 4 0
    ++ [9, 1]
    ++ List.replicate 7 0
    ++ [116, 1, 0, 0, 0, 1]
    ++ List.replicate 19 0
    ++ [1]
    ++ List.replicate 7 0
    ++ [116, 1, 0, 0, 0, 1]
    ++ List.replicate 11 0
    ++ [4]
    ++ List.replicate 26 0

/-- Byte text of the duplicated metadata key "a". -/
def aKey : List Nat := [97]

/-- Byte text of the duplicated tensor name "t". -/
def tKey : List Nat := [116]

/-- A GGUF file with no metadata and one Q4_K tensor named "t" with
`dims = [256, 2^60]` and offset 0: its byte count `1 · 2^60 · 144`
overflows u64. -/
def c2Bytes : List Nat :=
  [71, 71, 85, 70, 3, 0, 0, 0, 1]
    ++ List.replicate 15 0
    ++ [1]
    ++ List.replicate 7 0
    ++ [116, 2]
    ++ List.replicate 4 0
    ++ [1]
    ++ List.replicate 13 0
    ++ [16, 12]
    ++ List.replicate 42 0

/-- The overflowing tensor-directory entry of `c2Bytes`. -/
def c2Tensor : TensorInfo := ⟨[116], [256, 2 ^ 60], 12, 0⟩

/-- A GGUF file with one dimensionless tensor whose relative offset is
`2^64 - 1`, so that computing its absolute offset
`data_section_offset + offset` overflows u64. -/
def c2bBytes : List Nat :=
  [71, 71, 85, 70, 3, 0, 0, 0, 1]
    ++ List.replicate 15 0
    ++ [1]
    ++ List.replicate 7 0
    ++ [116]
    ++ List.replicate 8 0
    ++ [255, 255, 255, 255, 255, 255, 255, 255]
    ++ List.replicate 15 0

/-- Two tensors whose file order has decreasing offsets (64 then 0). -/
def c3Tensors : List TensorInfo :=
  [⟨[97], [1], 0, 64⟩, ⟨[98], [1], 0, 0⟩]


/-- The `File` value that `parse` produces on `c1Bytes`. -/
def c1File : File :=
  ⟨3, 2, 2, [⟨aKey, .u8 7⟩, ⟨aKey, .u8 9⟩],
   [⟨tKey, [1], 0, 0⟩, ⟨tKey, [1], 0, 4⟩], 128, [(tKey, 0)], [(aKey, 0)]⟩

/-- Comparison of two index entries by the offset of the tensors they point
at (the sort key of the loader's `std::sort` call). -/
def keyLe (tensors : List TensorInfo) (a b : Nat) : Prop :=
  (tensors.getD a default).offset ≤ (tensors.getD b default).offset

instance (tensors : List TensorInfo) (a b : Nat) : Decidable (keyLe tensors a b) := by
  unfold keyLe
  infer_instance

/-! ## Theorems -/

/-! Bridge lemmas between bitwise operations and arithmetic. -/

theorem or_mul_pow_add : ∀ (k x b : Nat), b < 2 ^ k → (x * 2 ^ k) ||| b = x * 2 ^ k + b := by
  intro k
  induction k with
  | zero =>
    intro x b hb
    have : b = 0 := by omega
    subst this
    simp
  | succ k ih =>
    intro x b hb
    have hp : 2 ^ (k + 1) = 2 ^ k * 2 := by rw [pow_succ]
    have hbd : b / 2 < 2 ^ k := by omega
    have hdiv : (x * 2 ^ (k + 1) ||| b) / 2 = x * 2 ^ k + b / 2 := by
      rw [Nat.or_div_two]
      have : x * 2 ^ (k + 1) / 2 = x * 2 ^ k := by
        rw [hp, ← Nat.mul_assoc, Nat.mul_div_cancel _ (by omega)]
      rw [this, ih x (b / 2) hbd]
    have heven : (x * 2 ^ (k + 1)) % 2 = 0 := by
      rw [hp, ← Nat.mul_assoc]
      omega
    have hmod : (x * 2 ^ (k + 1) ||| b) % 2 = b % 2 := by
      rcases Nat.mod_two_eq_zero_or_one b with hb2 | hb2
      · have : ¬ ((x * 2 ^ (k + 1) ||| b) % 2 = 1) := by
          rw [Nat.or_mod_two_eq_one]
          omega
        omega
      · have : (x * 2 ^ (k + 1) ||| b) % 2 = 1 := by
          rw [Nat.or_mod_two_eq_one]
          omega
        omega
    have hsum := Nat.div_add_mod (x * 2 ^ (k + 1) ||| b) 2
    have hx : x * 2 ^ (k + 1) = x * 2 ^ k * 2 := by rw [hp, Nat.mul_assoc]
    omega

theorem and_mul_pow : ∀ (k a b c : Nat), b < 2 ^ k →
    (a * 2 ^ k + b) &&& (c * 2 ^ k) = (a &&& c) * 2 ^ k := by
  intro k
  induction k with
  | zero =>
    intro a b c hb
    have : b = 0 := by omega
    subst this
    simp
  | succ k ih =>
    intro a b c hb
    have hp : 2 ^ (k + 1) = 2 ^ k * 2 := by rw [pow_succ]
    have hbd : b / 2 < 2 ^ k := by omega
    have hdiv : ((a * 2 ^ (k + 1) + b) &&& (c * 2 ^ (k + 1))) / 2
        = (a &&& c) * 2 ^ k := by
      rw [Nat.and_div_two]
      have h1 : (a * 2 ^ (k + 1) + b) / 2 = a * 2 ^ k + b / 2 := by
        rw [hp, ← Nat.mul_assoc]
        omega
      have h2 : c * 2 ^ (k + 1) / 2 = c * 2 ^ k := by
        rw [hp, ← Nat.mul_assoc, Nat.mul_div_cancel _ (by omega)]
      rw [h1, h2, ih a (b / 2) c hbd]
    have hmod : ((a * 2 ^ (k + 1) + b) &&& (c * 2 ^ (k + 1))) % 2 = 0 := by
      have heven : (c * 2 ^ (k + 1)) % 2 = 0 := by
        rw [hp, ← Nat.mul_assoc]
        omega
      have : ¬ (((a * 2 ^ (k + 1) + b) &&& (c * 2 ^ (k + 1))) % 2 = 1) := by
        rw [Nat.and_mod_two_eq_one]
        omega
      omega
    have hsum := Nat.div_add_mod ((a * 2 ^ (k + 1) + b) &&& (c * 2 ^ (k + 1))) 2
    have hgoal : (a * 2 ^ (k + 1) + b) &&& (c * 2 ^ (k + 1))
        = 2 * (((a * 2 ^ (k + 1) + b) &&& (c * 2 ^ (k + 1))) / 2) := by omega
    rw [hgoal, hdiv, hp]
    ring


/-! Field extraction for a decomposed half input `h = s*2^15 + e*2^10 + m`. -/

theorem ext_sign (s e m : Nat) (hs : s < 2) (he : e < 32) (hm : m < 2 ^ 10) :
    (s * 2 ^ 15 + e * 2 ^ 10 + m) &&& 0x8000 = s * 2 ^ 15 := by
  have h1 : s * 2 ^ 15 + e * 2 ^ 10 + m = s * 2 ^ 15 + (e * 2 ^ 10 + m) := by ring
  have h2 : (0x8000 : Nat) = 1 * 2 ^ 15 := by norm_num
  rw [h1, h2, and_mul_pow 15 s (e * 2 ^ 10 + m) 1 (by omega), Nat.and_one_is_mod]
  omega

theorem ext_exp (s e m : Nat) (hs : s < 2) (he : e < 32) (hm : m < 2 ^ 10) :
    ((s * 2 ^ 15 + e * 2 ^ 10 + m) &&& 0x7C00) >>> 10 = e := by
  have h1 : s * 2 ^ 15 + e * 2 ^ 10 + m = (s * 2 ^ 5 + e) * 2 ^ 10 + m := by ring
  have h2 : (0x7C00 : Nat) = 31 * 2 ^ 10 := by norm_num
  have h3 : (s * 2 ^ 5 + e) &&& 31 = e := by
    have h4 : (31 : Nat) = 2 ^ 5 - 1 := by norm_num
    rw [h4, Nat.and_pow_two_sub_one_eq_mod]
    omega
  rw [h1, h2, and_mul_pow 10 (s * 2 ^ 5 + e) m 31 hm, h3, Nat.shiftRight_eq_div_pow]
  exact Nat.mul_div_cancel _ (by norm_num)

theorem ext_mant (s e m : Nat) (hs : s < 2) (he : e < 32) (hm : m < 2 ^ 10) :
    (s * 2 ^ 15 + e * 2 ^ 10 + m) &&& 0x3FF = m := by
  have h2 : (0x3FF : Nat) = 2 ^ 10 - 1 := by norm_num
  rw [h2, Nat.and_pow_two_sub_one_eq_mod]
  omega

theorem ext_e16 (s e m : Nat) (hs : s < 2) (he : e < 32) (hm : m < 2 ^ 10) :
    ((s * 2 ^ 15 + e * 2 ^ 10 + m) >>> 10) &&& 31 = e := by
  rw [Nat.shiftRight_eq_div_pow]
  have h1 : (s * 2 ^ 15 + e * 2 ^ 10 + m) / 2 ^ 10 = s * 2 ^ 5 + e := by omega
  have h4 : (31 : Nat) = 2 ^ 5 - 1 := by norm_num
  rw [h1, h4, Nat.and_pow_two_sub_one_eq_mod]
  omega

theorem ext_s16 (s e m : Nat) (hs : s < 2) (he : e < 32) (hm : m < 2 ^ 10) :
    (s * 2 ^ 15 + e * 2 ^ 10 + m) >>> 15 = s := by
  rw [Nat.shiftRight_eq_div_pow]
  omega

/-- Composition of the three disjoint output fields is plain addition. -/
theorem compose_bits (s E m : Nat) (hs : s < 2) (hE : E < 256) (hm : m < 2 ^ 10) :
    ((s * 2 ^ 15) <<< 16) ||| (E <<< 23) ||| (m <<< 13)
      = s * 2 ^ 31 + E * 2 ^ 23 + m * 2 ^ 13 := by
  rw [Nat.shiftLeft_eq, Nat.shiftLeft_eq, Nat.shiftLeft_eq]
  have h1 : s * 2 ^ 15 * 2 ^ 16 = s * 2 ^ 31 := by ring
  have h2 : (s * 2 ^ 31) ||| (E * 2 ^ 23) = s * 2 ^ 31 + E * 2 ^ 23 := by
    exact or_mul_pow_add 31 s (E * 2 ^ 23) (by omega)
  have h3 : s * 2 ^ 31 + E * 2 ^ 23 = (s * 2 ^ 8 + E) * 2 ^ 23 := by ring
  have h4 : ((s * 2 ^ 8 + E) * 2 ^ 23) ||| (m * 2 ^ 13)
      = (s * 2 ^ 8 + E) * 2 ^ 23 + m * 2 ^ 13 := by
    exact or_mul_pow_add 23 _ (m * 2 ^ 13) (by omega)
  rw [h1, h2, h3, h4]







/-- The subnormal-normalization loop shifts the mantissa left `t` times until
bit 10 is set, decrementing the exponent accordingly. -/
theorem fp16Normalize_spec : ∀ (fuel mant exp : Nat), 0 < mant → mant < 2 ^ 11 →
    2 ^ 10 ≤ mant * 2 ^ fuel →
    ∃ t, fp16Normalize fuel mant exp = (mant * 2 ^ t, exp - t)
      ∧ 2 ^ 10 ≤ mant * 2 ^ t ∧ mant * 2 ^ t < 2 ^ 11 := by
  intro fuel
  induction fuel with
  | zero =>
    intro mant exp h0 h11 hge
    refine ⟨0, ?_, by simpa using hge, by simpa using h11⟩
    simp [fp16Normalize]
  | succ fuel ih =>
    intro mant exp h0 h11 hge
    have hand : mant &&& 0x400 = (mant / 2 ^ 10 % 2) * 2 ^ 10 := by
      have hd : mant = (mant / 2 ^ 10) * 2 ^ 10 + mant % 2 ^ 10 := by omega
      have hx : (0x400 : Nat) = 1 * 2 ^ 10 := by norm_num
      conv_lhs => rw [hd, hx]
      rw [and_mul_pow 10 (mant / 2 ^ 10) (mant % 2 ^ 10) 1 (by omega), Nat.and_one_is_mod]
    by_cases hbit : mant &&& 0x400 = 0
    · have hlow : mant < 2 ^ 10 := by
        rw [hand] at hbit
        omega
      have hrec : fp16Normalize (fuel + 1) mant exp
          = fp16Normalize fuel (mant <<< 1) (exp - 1) := by
        rw [fp16Normalize, if_pos hbit]
      have hsl : mant <<< 1 = mant * 2 := by
        rw [Nat.shiftLeft_eq]
      have hge' : 2 ^ 10 ≤ mant * 2 * 2 ^ fuel := by
        have : mant * 2 * 2 ^ fuel = mant * 2 ^ (fuel + 1) := by ring
        omega
      obtain ⟨t, heq, hge2, hlt2⟩ := ih (mant * 2) (exp - 1) (by omega) (by omega) hge'
      refine ⟨t + 1, ?_, ?_, ?_⟩
      · rw [hrec, hsl, heq]
        have h1 : mant * 2 * 2 ^ t = mant * 2 ^ (t + 1) := by ring
        have h2 : exp - 1 - t = exp - (t + 1) := by omega
        rw [h1, h2]
      · have : mant * 2 * 2 ^ t = mant * 2 ^ (t + 1) := by ring
        omega
      · have : mant * 2 * 2 ^ t = mant * 2 ^ (t + 1) := by ring
        omega
    · have hhigh : 2 ^ 10 ≤ mant := by
        rw [hand] at hbit
        omega
      refine ⟨0, ?_, by simpa using hhigh, by simpa using h11⟩
      rw [fp16Normalize, if_neg hbit]
      simp







theorem b_exp (s E M : Nat) (hs : s < 2) (hE : E < 256) (hM : M < 2 ^ 23) :
    ((s * 2 ^ 31 + E * 2 ^ 23 + M) >>> 23) &&& 255 = E := by
  rw [Nat.shiftRight_eq_div_pow]
  have h1 : (s * 2 ^ 31 + E * 2 ^ 23 + M) / 2 ^ 23 = s * 2 ^ 8 + E := by omega
  have h2 : (255 : Nat) = 2 ^ 8 - 1 := by norm_num
  rw [h1, h2, Nat.and_pow_two_sub_one_eq_mod]
  omega

theorem b_mant (s E M : Nat) (hs : s < 2) (hE : E < 256) (hM : M < 2 ^ 23) :
    (s * 2 ^ 31 + E * 2 ^ 23 + M) &&& 0x7FFFFF = M := by
  have h2 : (0x7FFFFF : Nat) = 2 ^ 23 - 1 := by norm_num
  rw [h2, Nat.and_pow_two_sub_one_eq_mod]
  omega

theorem b_sign (s E M : Nat) (hs : s < 2) (hE : E < 256) (hM : M < 2 ^ 23) :
    (s * 2 ^ 31 + E * 2 ^ 23 + M) >>> 31 = s := by
  rw [Nat.shiftRight_eq_div_pow]
  omega

theorem fp16_bits_normal (s e m : Nat) (hs : s < 2) (he1 : 1 ≤ e) (he2 : e ≤ 30)
    (hm : m < 2 ^ 10) :
    fp16_to_fp32 (s * 2 ^ 15 + e * 2 ^ 10 + m)
      = s * 2 ^ 31 + (e + 112) * 2 ^ 23 + m * 2 ^ 13 := by
  simp only [fp16_to_fp32]
  rw [ext_exp s e m hs (by omega) hm, ext_sign s e m hs (by omega) hm,
    ext_mant s e m hs (by omega) hm]
  rw [if_neg (by omega), if_neg (by omega)]
  exact compose_bits s (e + 112) m hs (by omega) hm

theorem decode_normal (s e m : Nat) (hs : s < 2) (he1 : 1 ≤ e) (he2 : e ≤ 30)
    (hm : m < 2 ^ 10) :
    decodeOk (s * 2 ^ 15 + e * 2 ^ 10 + m) := by
  simp only [decodeOk]
  rw [ext_e16 s e m hs (by omega) hm,
    fp16_bits_normal s e m hs he1 he2 hm, if_neg (by omega)]
  have hM : m * 2 ^ 13 < 2 ^ 23 := by omega
  refine ⟨?_, ?_, ?_⟩
  · rw [b_exp s (e + 112) (m * 2 ^ 13) hs (by omega) hM]
    omega
  · simp only [f32MagUnits, f16MagUnits]
    rw [b_exp s (e + 112) (m * 2 ^ 13) hs (by omega) hM,
      b_mant s (e + 112) (m * 2 ^ 13) hs (by omega) hM,
      ext_e16 s e m hs (by omega) hm, ext_mant s e m hs (by omega) hm]
    rw [if_neg (by omega), if_neg (by omega)]
    have h1 : e + 112 - 1 = e + 111 := by omega
    rw [h1, show (2:Nat) ^ (e + 111) = 2 ^ e * 2 ^ 111 from pow_add 2 e 111,
      show (2:Nat) ^ (e + 124) = 2 ^ e * 2 ^ 124 from pow_add 2 e 124]
    ring
  · rw [b_sign s (e + 112) (m * 2 ^ 13) hs (by omega) hM,
      ext_s16 s e m hs (by omega) hm]







theorem decode_zero (s e m : Nat) (hs : s < 2) (he : e < 32) (hm : m < 2 ^ 10)
    (he0 : e = 0) (hm0 : m = 0) :
    decodeOk (s * 2 ^ 15 + e * 2 ^ 10 + m) := by
  have hb : fp16_to_fp32 (s * 2 ^ 15 + e * 2 ^ 10 + m) = s * 2 ^ 31 := by
    simp only [fp16_to_fp32]
    rw [ext_exp s e m hs he hm, ext_mant s e m hs he hm,
      if_pos he0, if_pos hm0, ext_sign s e m hs he hm, Nat.shiftLeft_eq]
    ring
  simp only [decodeOk]
  rw [ext_e16 s e m hs he hm, hb, if_neg (by omega)]
  refine ⟨?_, ?_, ?_⟩
  · rw [Nat.shiftRight_eq_div_pow]
    have h1 : s * 2 ^ 31 / 2 ^ 23 = s * 2 ^ 8 := by omega
    rw [h1, show (255 : Nat) = 2 ^ 8 - 1 from by norm_num,
      Nat.and_pow_two_sub_one_eq_mod]
    omega
  · simp only [f32MagUnits, f16MagUnits]
    rw [Nat.shiftRight_eq_div_pow]
    have h1 : s * 2 ^ 31 / 2 ^ 23 = s * 2 ^ 8 := by omega
    rw [h1, show (255 : Nat) = 2 ^ 8 - 1 from by norm_num,
      Nat.and_pow_two_sub_one_eq_mod,
      show (0x7FFFFF : Nat) = 2 ^ 23 - 1 from by norm_num,
      Nat.and_pow_two_sub_one_eq_mod,
      ext_e16 s e m hs he hm, ext_mant s e m hs he hm]
    rw [if_pos (by omega), if_pos he0]
    omega
  · rw [Nat.shiftRight_eq_div_pow, ext_s16 s e m hs he hm]
    omega

theorem decode_subnormal (s e m : Nat) (hs : s < 2) (he : e < 32) (hm : m < 2 ^ 10)
    (he0 : e = 0) (hm0 : 0 < m) :
    decodeOk (s * 2 ^ 15 + e * 2 ^ 10 + m) := by
  obtain ⟨t, heq, hge2, hlt2⟩ := fp16Normalize_spec 16 m 113 hm0 (by omega) (by
    have : 2 ^ 16 ≤ m * 2 ^ 16 := Nat.le_mul_of_pos_left _ hm0
    omega)
  have htA : 2 ^ t ≤ m * 2 ^ t := Nat.le_mul_of_pos_left _ hm0
  have ht : t < 11 := by
    have h2 : (2 : Nat) ^ t < 2 ^ 11 := by omega
    exact (Nat.pow_lt_pow_iff_right (by norm_num)).mp h2
  have hb : fp16_to_fp32 (s * 2 ^ 15 + e * 2 ^ 10 + m)
      = s * 2 ^ 31 + (113 - t) * 2 ^ 23 + (m * 2 ^ t - 2 ^ 10) * 2 ^ 13 := by
    simp only [fp16_to_fp32]
    rw [ext_exp s e m hs he hm, ext_mant s e m hs he hm,
      if_pos he0, if_neg (by omega), ext_sign s e m hs he hm, heq]
    have hmask : (m * 2 ^ t) &&& 0x03FF = m * 2 ^ t - 2 ^ 10 := by
      rw [show (0x03FF : Nat) = 2 ^ 10 - 1 from by norm_num,
        Nat.and_pow_two_sub_one_eq_mod]
      omega
    rw [hmask]
    exact compose_bits s (113 - t) (m * 2 ^ t - 2 ^ 10) hs (by omega) (by omega)
  have hM : (m * 2 ^ t - 2 ^ 10) * 2 ^ 13 < 2 ^ 23 := by omega
  simp only [decodeOk]
  rw [ext_e16 s e m hs he hm, hb, if_neg (by omega)]
  refine ⟨?_, ?_, ?_⟩
  · rw [b_exp s (113 - t) _ hs (by omega) hM]
    omega
  · simp only [f32MagUnits, f16MagUnits]
    rw [b_exp s (113 - t) _ hs (by omega) hM, b_mant s (113 - t) _ hs (by omega) hM,
      ext_e16 s e m hs he hm, ext_mant s e m hs he hm]
    rw [if_neg (by omega), if_pos he0]
    have h1 : 2 ^ 23 + (m * 2 ^ t - 2 ^ 10) * 2 ^ 13 = m * 2 ^ t * 2 ^ 13 := by omega
    have h2 : 113 - t - 1 = 112 - t := by omega
    rw [h1, h2]
    have h3 : m * 2 ^ t * 2 ^ 13 * 2 ^ (112 - t) = m * 2 ^ 125 := by
      rw [Nat.mul_assoc, Nat.mul_assoc, ← pow_add, ← pow_add,
        show t + (13 + (112 - t)) = 125 from by omega]
    rw [h3]
  · rw [b_sign s (113 - t) _ hs (by omega) hM, ext_s16 s e m hs he hm]

theorem decode_inf (s e m : Nat) (hs : s < 2) (he : e < 32) (hm : m < 2 ^ 10)
    (he31 : e = 31) (hm0 : m = 0) :
    decodeOk (s * 2 ^ 15 + e * 2 ^ 10 + m) := by
  have hb : fp16_to_fp32 (s * 2 ^ 15 + e * 2 ^ 10 + m)
      = s * 2 ^ 31 + 0x7F800000 := by
    simp only [fp16_to_fp32]
    rw [ext_exp s e m hs he hm, ext_mant s e m hs he hm,
      if_neg (by omega), if_pos he31, ext_sign s e m hs he hm, hm0]
    rw [Nat.shiftLeft_eq, Nat.shiftLeft_eq]
    have h0 : (0 : Nat) * 2 ^ 13 = 0 := by ring
    rw [h0, Nat.or_zero]
    have h1 : s * 2 ^ 15 * 2 ^ 16 = s * 2 ^ 31 := by ring
    rw [h1]
    exact or_mul_pow_add 31 s 0x7F800000 (by norm_num)
  simp only [decodeOk]
  rw [ext_e16 s e m hs he hm, ext_mant s e m hs he hm, hb, if_pos he31, if_pos hm0,
    ext_s16 s e m hs he hm, Nat.shiftLeft_eq]
  rw [or_mul_pow_add 31 s 0x7F800000 (by norm_num)]

theorem decode_nan (s e m : Nat) (hs : s < 2) (he : e < 32) (hm : m < 2 ^ 10)
    (he31 : e = 31) (hm0 : 0 < m) :
    decodeOk (s * 2 ^ 15 + e * 2 ^ 10 + m) := by
  have hb : fp16_to_fp32 (s * 2 ^ 15 + e * 2 ^ 10 + m)
      = s * 2 ^ 31 + 255 * 2 ^ 23 + m * 2 ^ 13 := by
    simp only [fp16_to_fp32]
    rw [ext_exp s e m hs he hm, ext_mant s e m hs he hm,
      if_neg (by omega), if_pos he31, ext_sign s e m hs he hm]
    rw [Nat.shiftLeft_eq, Nat.shiftLeft_eq]
    have h1 : s * 2 ^ 15 * 2 ^ 16 = s * 2 ^ 31 := by ring
    rw [h1, or_mul_pow_add 31 s 0x7F800000 (by norm_num)]
    have h2 : s * 2 ^ 31 + 0x7F800000 = (s * 2 ^ 8 + 255) * 2 ^ 23 := by ring
    rw [h2, or_mul_pow_add 23 _ (m * 2 ^ 13) (by omega)]
    ring
  have hM : m * 2 ^ 13 < 2 ^ 23 := by omega
  simp only [decodeOk]
  rw [ext_e16 s e m hs he hm, ext_mant s e m hs he hm, hb, if_pos he31,
    if_neg (by omega)]
  refine ⟨?_, ?_⟩
  · exact b_exp s 255 (m * 2 ^ 13) hs (by omega) hM
  · rw [b_mant s 255 (m * 2 ^ 13) hs (by omega) hM]
    omega

theorem fp16_decode_all (h : Nat) (hh : h < 65536) : decodeOk h := by
  have hd : h = (h / 2 ^ 15) * 2 ^ 15 + (h / 2 ^ 10 % 32) * 2 ^ 10 + h % 2 ^ 10 := by
    omega
  have hs : h / 2 ^ 15 < 2 := by omega
  have he : h / 2 ^ 10 % 32 < 32 := by omega
  have hm : h % 2 ^ 10 < 2 ^ 10 := by omega
  rw [hd]
  by_cases he0 : h / 2 ^ 10 % 32 = 0
  · by_cases hm0 : h % 2 ^ 10 = 0
    · exact decode_zero _ _ _ hs he hm he0 hm0
    · exact decode_subnormal _ _ _ hs he hm he0 (by omega)
  · by_cases he31 : h / 2 ^ 10 % 32 = 31
    · by_cases hm0 : h % 2 ^ 10 = 0
      · exact decode_inf _ _ _ hs he hm he31 hm0
      · exact decode_nan _ _ _ hs he hm he31 (by omega)
    · exact decode_normal _ _ _ hs (by omega) (by omega) hm




/-- C6: `fp16_to_fp32` decodes every 16-bit half per IEEE 754: zeros keep
their sign, `0x7C00`/`0xFC00` map to the same-signed infinity bit patterns,
`0x7E00` (and every half NaN) maps to an f32 NaN, and every finite half —
subnormals such as `0x0001 → 2^(-24)` included — decodes to a bit pattern of
exactly its IEEE value. -/
theorem c6_fp16_decode_ieee (h : Nat) (hh : h < 65536) : decodeOk h :=
  fp16_decode_all h hh

/-- Witness for C6 at the six named inputs of the claim. -/
theorem c6_witness :
    decodeOk 0x0000 ∧ decodeOk 0x8000 ∧ decodeOk 0x7C00 ∧ decodeOk 0xFC00
      ∧ decodeOk 0x7E00 ∧ decodeOk 0x0001 :=
  ⟨c6_fp16_decode_ieee 0x0000 (by norm_num),
   c6_fp16_decode_ieee 0x8000 (by norm_num),
   c6_fp16_decode_ieee 0x7C00 (by norm_num),
   c6_fp16_decode_ieee 0xFC00 (by norm_num),
   c6_fp16_decode_ieee 0x7E00 (by norm_num),
   c6_fp16_decode_ieee 0x0001 (by norm_num)⟩

/-- C10: `Reader::skip` checks `pos_ + n > size_` in `size_t` arithmetic, so
a huge `n` wraps: at `pos = size = 8` a skip of `2^64 - 1` is accepted and
moves the cursor backwards to 7, where the claim requires failure because
`pos + n > size` over the integers. -/
theorem c10_skip_wraparound :
    Reader.skip ⟨List.replicate 8 0, 8, 8⟩ (2 ^ 64 - 1)
      = .ok ⟨List.replicate 8 0, 8, 7⟩ := by decide

/-- C4: both block dequantizers reject every element count that is not a
multiple of 256 (the `assert` in the dequantizer, re-thrown as a shape error
by `load_tensor_as_f32`); no partial block is ever processed. -/
theorem c4_dequant_invalid_shape (k : Nat) (hk : k % 256 ≠ 0) :
    (∀ x : List block_q4_K, dequantize_row_q4_k x k = .error .InvalidShape)
  ∧ (∀ x : List block_q6_K, dequantize_row_q6_k x k = .error .InvalidShape) := by
  constructor
  · intro x
    simp only [dequantize_row_q4_k, QK_K]
    rw [if_pos hk]
  · intro x
    simp only [dequantize_row_q6_k, QK_K]
    rw [if_pos hk]

/-- Witness for C4 at `k = 100`. -/
theorem c4_witness :
    dequantize_row_q4_k [] 100 = .error .InvalidShape
  ∧ dequantize_row_q6_k [] 100 = .error .InvalidShape :=
  ⟨(c4_dequant_invalid_shape 100 (by decide)).1 [],
   (c4_dequant_invalid_shape 100 (by decide)).2 []⟩

set_option maxRecDepth 8000 in
/-- C1 counterexample: on a file whose metadata lists the key "a" twice and
whose tensor directory lists the name "t" twice, both lookup indexes built by
`parse` map the duplicate to entry 0 (the first written), not to entry 1 (the
last written) as the claim states; both vectors keep their entries in parse
order. -/
theorem c1_counterexample :
    ((parse c1Bytes).toOption.bind fun f => f.kv_index_by_key.lookup aKey) = some 0
  ∧ ((parse c1Bytes).toOption.bind fun f => f.kv_index_by_key.lookup aKey)
      ≠ some 1
  ∧ ((parse c1Bytes).toOption.bind fun f => f.tensor_index_by_name.lookup tKey)
      = some 0
  ∧ ((parse c1Bytes).toOption.bind fun f => f.tensor_index_by_name.lookup tKey)
      ≠ some 1
  ∧ ((parse c1Bytes).toOption.map fun f => f.metadata)
      = some [⟨aKey, .u8 7⟩, ⟨aKey, .u8 9⟩]
  ∧ ((parse c1Bytes).toOption.map fun f => f.tensors)
      = some [⟨tKey, [1], 0, 0⟩, ⟨tKey, [1], 0, 4⟩] := by decide

/-- C2 counterexample: `c2Bytes` declares a Q4_K tensor whose byte count
`2^60 · 144` overflows u64 during `tensor_nbytes`; the overflow yields `none`
rather than a parse failure, and `parse` succeeds.  And on `c2bBytes`, whose
tensor offset `2^64 - 1` makes the absolute-offset addition overflow, the
parse fails with the tensor-offset-out-of-bounds error, not with
`ArithmeticOverflow`. -/
theorem c2_counterexample :
    tensor_nbytes c2Tensor = none
  ∧ ((parse c2Bytes).toOption.map fun f => f.tensors) = some [c2Tensor]
  ∧ (parse c2Bytes).isOk = true
  ∧ parse c2bBytes = .error .TensorOffsetOOB := by decide

/-- C3 counterexample: two tensors whose file order has strictly decreasing
offsets (64 then 0); the loader's size-from-offsets pass sorts by offset
first, so construction succeeds (sizes 64 and 64) instead of failing with
`NonMonotonicOffsets`. -/
theorem c3_counterexample :
    ¬ offsetsNondecreasing c3Tensors
  ∧ tensor_size_from_offsets c3Tensors 0 128 = .ok [64, 64] := by
  constructor
  · intro hmono
    simp [offsetsNondecreasing, c3Tensors, List.chain'_cons] at hmono
  · decide

/-! Lemmas for the metadata index: `emplace` keeps the first occurrence. -/

theorem lookup_append_single (idx : List (List Nat × Nat)) (k key : List Nat) (v : Nat) :
    (idx ++ [(key, v)]).lookup k
      = match idx.lookup k with
        | some w => some w
        | none => if k == key then some v else none := by
  induction idx with
  | nil =>
    by_cases hkk : k == key <;> simp [List.lookup, hkk]
  | cons p rest ih =>
    obtain ⟨a, b⟩ := p
    by_cases hk : k == a
    · simp [List.lookup, hk]
    · simp [List.lookup, hk, ih]

theorem keyFirstIdx_append (md : List KV) (e : KV) (k : List Nat) :
    keyFirstIdx (md ++ [e]) k
      = match keyFirstIdx md k with
        | some i => some i
        | none => if e.key = k then some md.length else none := by
  induction md with
  | nil =>
    by_cases he : e.key = k <;> simp [keyFirstIdx, he]
  | cons e0 rest ih =>
    by_cases hk : e0.key = k
    · simp [keyFirstIdx, hk]
    · simp only [List.cons_append, keyFirstIdx, if_neg hk, List.length_cons]
      cases hf : keyFirstIdx rest k with
      | some i => simp [ih, hf]
      | none =>
        by_cases he : e.key = k <;> simp [ih, hf, he]

theorem emplace_step (md : List KV) (idx : List (List Nat × Nat)) (key : List Nat)
    (v : GValue) (hinv : ∀ k, idx.lookup k = keyFirstIdx md k) (k : List Nat) :
    (emplaceIdx idx key md.length).lookup k = keyFirstIdx (md ++ [⟨key, v⟩]) k := by
  rw [keyFirstIdx_append]
  simp only [emplaceIdx]
  by_cases hs : (idx.lookup key).isSome
  · rw [if_pos hs, hinv k]
    cases hf : keyFirstIdx md k with
    | some i => rfl
    | none =>
      by_cases hk : key = k
      · subst hk
        rw [hinv key, hf] at hs
        simp at hs
      · simp [hk]
  · rw [if_neg hs, lookup_append_single]
    rw [hinv k]
    cases hf : keyFirstIdx md k with
    | some i => rfl
    | none =>
      by_cases hk : k = key
      · subst hk
        simp
      · have h1 : (k == key) = false := by simpa using hk
        have h2 : ¬ (key = k) := fun hcontra => hk hcontra.symm
        simp [h1, h2]

theorem parseKVs_inv : ∀ (n : Nat) (r : Reader) (md : List KV)
    (idx : List (List Nat × Nat)) (out : List KV × List (List Nat × Nat) × Reader),
    parseKVs n r md idx = .ok out →
    (∀ k, idx.lookup k = keyFirstIdx md k) →
    ∀ k, out.2.1.lookup k = keyFirstIdx out.1 k := by
  intro n
  induction n with
  | zero =>
    intro r md idx out hp hinv k
    simp only [parseKVs] at hp
    cases hp
    exact hinv k
  | succ n ih =>
    intro r md idx out hp hinv k
    simp only [parseKVs] at hp
    cases hrs : r.read_string with
    | error e => simp [hrs] at hp
    | ok p =>
      obtain ⟨key, r1⟩ := p
      simp only [hrs] at hp
      cases hu : r1.readU32 with
      | error e => simp [hu] at hp
      | ok q =>
        obtain ⟨t, r2⟩ := q
        simp only [hu] at hp
        cases hv : read_value r2 t with
        | error e => simp [hv] at hp
        | ok w =>
          obtain ⟨v, r3⟩ := w
          simp only [hv] at hp
          exact ih r3 _ _ out hp (emplace_step md idx key v hinv) k

theorem nameFirstIdx_append (ts : List TensorInfo) (e : TensorInfo) (k : List Nat) :
    nameFirstIdx (ts ++ [e]) k
      = match nameFirstIdx ts k with
        | some i => some i
        | none => if e.name = k then some ts.length else none := by
  induction ts with
  | nil =>
    by_cases he : e.name = k <;> simp [nameFirstIdx, he]
  | cons e0 rest ih =>
    by_cases hk : e0.name = k
    · simp [nameFirstIdx, hk]
    · simp only [List.cons_append, nameFirstIdx, if_neg hk, List.length_cons]
      cases hf : nameFirstIdx rest k with
      | some i => simp [ih, hf]
      | none =>
        by_cases he : e.name = k <;> simp [ih, hf, he]

theorem emplace_step_t (ts : List TensorInfo) (idx : List (List Nat × Nat))
    (name dims : List Nat) (ty off : Nat)
    (hinv : ∀ k, idx.lookup k = nameFirstIdx ts k) (k : List Nat) :
    (emplaceIdx idx name ts.length).lookup k
      = nameFirstIdx (ts ++ [⟨name, dims, ty, off⟩]) k := by
  rw [nameFirstIdx_append]
  simp only [emplaceIdx]
  by_cases hs : (idx.lookup name).isSome
  · rw [if_pos hs, hinv k]
    cases hf : nameFirstIdx ts k with
    | some i => rfl
    | none =>
      by_cases hk : name = k
      · subst hk
        rw [hinv name, hf] at hs
        simp at hs
      · simp [hk]
  · rw [if_neg hs, lookup_append_single]
    rw [hinv k]
    cases hf : nameFirstIdx ts k with
    | some i => rfl
    | none =>
      by_cases hk : k = name
      · subst hk
        simp
      · have h1 : (k == name) = false := by simpa using hk
        have h2 : ¬ (name = k) := fun hcontra => hk hcontra.symm
        simp [h1, h2]

theorem parseTensors_inv : ∀ (n : Nat) (r : Reader) (ts : List TensorInfo)
    (idx : List (List Nat × Nat))
    (out : List TensorInfo × List (List Nat × Nat) × Reader),
    parseTensors n r ts idx = .ok out →
    (∀ k, idx.lookup k = nameFirstIdx ts k) →
    ∀ k, out.2.1.lookup k = nameFirstIdx out.1 k := by
  intro n
  induction n with
  | zero =>
    intro r ts idx out hp hinv k
    simp only [parseTensors] at hp
    cases hp
    exact hinv k
  | succ n ih =>
    intro r ts idx out hp hinv k
    simp only [parseTensors] at hp
    cases h1 : r.read_string with
    | error e => simp [h1] at hp
    | ok p =>
      obtain ⟨name, r1⟩ := p
      simp only [h1] at hp
      cases h2 : r1.readU32 with
      | error e => simp [h2] at hp
      | ok q =>
        obtain ⟨ndims, r2⟩ := q
        simp only [h2] at hp
        cases h3 : readDims ndims r2 [] with
        | error e => simp [h3] at hp
        | ok w =>
          obtain ⟨dims, r3⟩ := w
          simp only [h3] at hp
          cases h4 : r3.readU32 with
          | error e => simp [h4] at hp
          | ok q2 =>
            obtain ⟨ty, r4⟩ := q2
            simp only [h4] at hp
            cases h5 : r4.readU64 with
            | error e => simp [h5] at hp
            | ok q3 =>
              obtain ⟨off, r5⟩ := q3
              simp only [h5] at hp
              exact ih r5 _ _ out hp
                (emplace_step_t ts idx name dims ty off hinv) k

/-- C1 (amended): when the metadata table or the tensor directory contains
duplicate keys (names), the lookup indexes built by `parse` map each
duplicate to its FIRST-written entry (both `unordered_map::emplace` calls
insert only when the key is absent); the order of entries in both vectors is
preserved. -/
theorem c1_kv_index_first_written_wins (data : List Nat) (f : File)
    (hp : parse data = .ok f) :
    (∀ k, f.kv_index_by_key.lookup k = keyFirstIdx f.metadata k)
  ∧ (∀ k, f.tensor_index_by_name.lookup k = nameFirstIdx f.tensors k) := by
  simp only [parse] at hp
  cases hm : (Reader.mk data data.length 0).readBytes 4 with
  | error e => simp [hm] at hp
  | ok p =>
    obtain ⟨magic, r1⟩ := p
    simp only [hm] at hp
    by_cases hmg : magic = [71, 71, 85, 70]
    case neg => simp [hmg] at hp
    simp only [if_neg (not_not_intro hmg)] at hp
    cases hv : r1.readU32 with
    | error e => simp [hv] at hp
    | ok q =>
      obtain ⟨version, r2⟩ := q
      simp only [hv] at hp
      cases ht : r2.readU64 with
      | error e => simp [ht] at hp
      | ok q2 =>
        obtain ⟨tc, r3⟩ := q2
        simp only [ht] at hp
        cases hmc : r3.readU64 with
        | error e => simp [hmc] at hp
        | ok q3 =>
          obtain ⟨mc, r4⟩ := q3
          simp only [hmc] at hp
          cases hkv : parseKVs mc r4 [] [] with
          | error e => simp [hkv] at hp
          | ok q4 =>
            obtain ⟨md, kvIdx, r5⟩ := q4
            simp only [hkv] at hp
            cases hts : parseTensors tc r5 [] [] with
            | error e => simp [hts] at hp
            | ok q5 =>
              obtain ⟨ts, tIdx, r6⟩ := q5
              simp only [hts] at hp
              by_cases hdso : align_up r6.pos (alignmentOf md kvIdx) > data.length
              case pos => simp [hdso] at hp
              simp only [if_neg hdso] at hp
              cases hck : checkTensors (align_up r6.pos (alignmentOf md kvIdx))
                  data.length ts with
              | error e => simp [hck] at hp
              | ok u =>
                simp only [hck] at hp
                cases hp
                exact ⟨parseKVs_inv mc r4 [] [] (md, kvIdx, r5) hkv (fun _ => rfl),
                  parseTensors_inv tc r5 [] [] (ts, tIdx, r6) hts (fun _ => rfl)⟩

set_option maxRecDepth 8000 in
/-- Witness for C1 on `c1Bytes`, which duplicates both the metadata key "a"
and the tensor name "t". -/
theorem c1_witness :
    c1File.kv_index_by_key.lookup aKey = keyFirstIdx c1File.metadata aKey
  ∧ c1File.tensor_index_by_name.lookup tKey = nameFirstIdx c1File.tensors tKey :=
  ⟨(c1_kv_index_first_written_wins c1Bytes c1File (by decide)).1 aKey,
   (c1_kv_index_first_written_wins c1Bytes c1File (by decide)).2 tKey⟩

/-- C2 (amended): a u64 overflow while computing the byte size of a metadata
array payload (any of the overflow-checked element widths 2, 4 and 8) fails
the parse with the arithmetic-overflow error; a u64 overflow computing a
tensor's absolute offset fails the parse, but with the
tensor-offset-out-of-bounds error rather than `ArithmeticOverflow`; and an
overflow inside the tensor byte count `n_blocks · type_size` does not fail
the parse: `tensor_nbytes` returns no size, the bounds check for that tensor
is skipped, and the size is deferred to the loader's offset-difference
estimator. -/
theorem c2_overflow_behavior :
    (∀ (r : Reader) (n et sz : Nat),
        ((et = 2 ∨ et = 3) ∧ sz = 2)
          ∨ ((et = 4 ∨ et = 5 ∨ et = 6) ∧ sz = 4)
          ∨ ((et = 10 ∨ et = 11 ∨ et = 12) ∧ sz = 8) →
        (U64 - 1) / sz < n →
        skipArrayPayload r et n = .error .ArithmeticOverflow)
  ∧ (∀ (dso size : Nat) (t : TensorInfo) (rest : List TensorInfo),
        add_overflow_u64 dso t.offset = none →
        checkTensors dso size (t :: rest) = .error .TensorOffsetOOB)
  ∧ (∀ (nm : List Nat) (off d : Nat), (U64 - 1) / 144 < d → d ≤ U64 - 1 →
        tensor_nbytes ⟨nm, [256, d], 12, off⟩ = none)
  ∧ (∀ (dso size : Nat) (t : TensorInfo) (rest : List TensorInfo),
        size ≤ U64 - 1 →
        tensor_nbytes t = none →
        dso + t.offset ≤ size →
        checkTensors dso size (t :: rest) = checkTensors dso size rest) := by
  refine ⟨?_, ?_, ?_, ?_⟩
  · intro r n et sz hcase hn
    rcases hcase with ⟨het, hsz⟩ | ⟨het, hsz⟩ | ⟨het, hsz⟩
    · subst hsz
      have hm : mul_overflow_u64 n 2 = none := by
        unfold mul_overflow_u64
        rw [if_neg (by omega), if_pos hn]
      rcases het with h | h <;> subst h <;> simp only [skipArrayPayload, hm]
    · subst hsz
      have hm : mul_overflow_u64 n 4 = none := by
        unfold mul_overflow_u64
        rw [if_neg (by omega), if_pos hn]
      rcases het with h | h | h <;> subst h <;> simp only [skipArrayPayload, hm]
    · subst hsz
      have hm : mul_overflow_u64 n 8 = none := by
        unfold mul_overflow_u64
        rw [if_neg (by omega), if_pos hn]
      rcases het with h | h | h <;> subst h <;> simp only [skipArrayPayload, hm]
  · intro dso size t rest hov
    simp only [checkTensors, hov]
  · intro nm off d hd hdu
    have h1 : mul_overflow_u64 1 d = some d := by
      unfold mul_overflow_u64
      have hd0 : d ≠ 0 := by
        intro h
        omega
      rw [if_neg (by omega), if_neg (by
        have : (U64 - 1) / d ≥ 1 := Nat.one_le_div_iff (by omega) |>.mpr (by omega)
        omega)]
      simp
    have h2 : mul_overflow_u64 d 144 = none := by
      unfold mul_overflow_u64
      rw [if_neg (by omega), if_pos (by omega)]
    simp only [tensor_nbytes, ggml_type_traits]
    simp [h1, h2]
  · intro dso size t rest hsize hnb hfit
    have hadd : add_overflow_u64 dso t.offset = some (dso + t.offset) := by
      unfold add_overflow_u64
      rw [if_neg (by omega)]
    simp only [checkTensors, hadd, hnb]
    rw [if_neg (by omega)]

/-- Witness for C2 at the three element widths, the overflowing absolute
offset of `c2bBytes`, and the overflowing tensor of `c2Bytes`. -/
theorem c2_witness :
    skipArrayPayload ⟨[], 0, 0⟩ 2 (2 ^ 63) = .error .ArithmeticOverflow
  ∧ skipArrayPayload ⟨[], 0, 0⟩ 6 (2 ^ 62) = .error .ArithmeticOverflow
  ∧ skipArrayPayload ⟨[], 0, 0⟩ 10 (2 ^ 61) = .error .ArithmeticOverflow
  ∧ checkTensors 64 64 [⟨tKey, [], 0, 2 ^ 64 - 1⟩] = .error .TensorOffsetOOB
  ∧ tensor_nbytes c2Tensor = none
  ∧ checkTensors 96 96 [c2Tensor] = checkTensors 96 96 [] :=
  ⟨c2_overflow_behavior.1 ⟨[], 0, 0⟩ (2 ^ 63) 2 2 (Or.inl ⟨Or.inl rfl, rfl⟩)
      (by decide),
   c2_overflow_behavior.1 ⟨[], 0, 0⟩ (2 ^ 62) 6 4
      (Or.inr (Or.inl ⟨Or.inr (Or.inr rfl), rfl⟩)) (by decide),
   c2_overflow_behavior.1 ⟨[], 0, 0⟩ (2 ^ 61) 10 8
      (Or.inr (Or.inr ⟨Or.inl rfl, rfl⟩)) (by decide),
   c2_overflow_behavior.2.1 64 64 ⟨tKey, [], 0, 2 ^ 64 - 1⟩ [] (by decide),
   c2_overflow_behavior.2.2.1 [116] 0 (2 ^ 60) (by decide) (by decide),
   c2_overflow_behavior.2.2.2 96 96 c2Tensor [] (by decide) (by decide) (by decide)⟩

/-! Lemmas for the loader's sort-then-difference size estimator. -/

theorem insertByOffset_mem (tensors : List TensorInfo) (x : Nat) :
    ∀ (l : List Nat) (y : Nat), y ∈ insertByOffset tensors x l → y = x ∨ y ∈ l := by
  intro l
  induction l with
  | nil =>
    intro y hy
    simp [insertByOffset] at hy
    exact Or.inl hy
  | cons z zs ih =>
    intro y hy
    simp only [insertByOffset] at hy
    split at hy
    · rcases List.mem_cons.mp hy with h | h
      · exact Or.inl h
      · exact Or.inr h
    · rcases List.mem_cons.mp hy with h | h
      · exact Or.inr (by simp [h])
      · rcases ih y h with h2 | h2
        · exact Or.inl h2
        · exact Or.inr (List.mem_cons_of_mem _ h2)

theorem insertByOffset_chain (tensors : List TensorInfo) (x : Nat) :
    ∀ l, List.Chain' (keyLe tensors) l →
      List.Chain' (keyLe tensors) (insertByOffset tensors x l) := by
  intro l
  induction l with
  | nil =>
    intro _
    simp [insertByOffset]
  | cons z zs ih =>
    intro hc
    have hc1 : ∀ y ∈ zs.head?, keyLe tensors z y := (List.chain'_cons'.mp hc).1
    have hc2 : List.Chain' (keyLe tensors) zs := (List.chain'_cons'.mp hc).2
    simp only [insertByOffset]
    split
    · rename_i hlt
      exact List.chain'_cons'.mpr ⟨by
        intro y hy
        simp at hy
        subst hy
        exact Nat.le_of_lt hlt, hc⟩
    · rename_i hge
      refine List.chain'_cons'.mpr ⟨?_, ih hc2⟩
      intro y hy
      cases zs with
      | nil =>
        simp [insertByOffset] at hy
        subst hy
        exact Nat.le_of_not_lt hge
      | cons w ws =>
        simp only [insertByOffset] at hy
        split at hy
        · simp at hy
          subst hy
          exact Nat.le_of_not_lt hge
        · simp at hy
          subst hy
          exact hc1 w rfl

theorem sortByOffset_mem (tensors : List TensorInfo) :
    ∀ (l : List Nat) (y : Nat), y ∈ sortByOffset tensors l → y ∈ l := by
  intro l
  induction l with
  | nil =>
    intro y hy
    simp [sortByOffset] at hy
  | cons z zs ih =>
    intro y hy
    simp only [sortByOffset] at hy
    rcases insertByOffset_mem tensors z _ y hy with h | h
    · simp [h]
    · exact List.mem_cons_of_mem _ (ih y h)

theorem sortByOffset_chain (tensors : List TensorInfo) :
    ∀ l, List.Chain' (keyLe tensors) (sortByOffset tensors l) := by
  intro l
  induction l with
  | nil => simp [sortByOffset]
  | cons z zs ih => exact insertByOffset_chain tensors z _ ih

theorem loaderLoop_ok (tensors : List TensorInfo) (dso size : Nat)
    (hsize : size ≤ U64 - 1) :
    ∀ (idx : List Nat), List.Chain' (keyLe tensors) idx →
      (∀ i ∈ idx, dso + (tensors.getD i default).offset ≤ size) →
      ∀ sizes, (loaderLoop tensors dso size idx sizes).isOk = true := by
  intro idx
  induction idx with
  | nil =>
    intro _ _ sizes
    rfl
  | cons cur rest ih =>
    intro hchain hbound sizes
    have hcur : dso + (tensors.getD cur default).offset ≤ size :=
      hbound cur (List.mem_cons_self _ _)
    have hadd : checked_add_u64 dso (tensors.getD cur default).offset
        = .ok (dso + (tensors.getD cur default).offset) := by
      unfold checked_add_u64
      rw [if_neg (by omega)]
    cases rest with
    | nil =>
      simp only [loaderLoop, hadd]
      rw [if_neg (by omega)]
      rfl
    | cons nxt rest2 =>
      have hnxt : dso + (tensors.getD nxt default).offset ≤ size :=
        hbound nxt (List.mem_cons_of_mem _ (List.mem_cons_self _ _))
      have hadd2 : checked_add_u64 dso (tensors.getD nxt default).offset
          = .ok (dso + (tensors.getD nxt default).offset) := by
        unfold checked_add_u64
        rw [if_neg (by omega)]
      have hle : keyLe tensors cur nxt := (List.chain'_cons.mp hchain).1
      unfold keyLe at hle
      simp only [loaderLoop, hadd, hadd2]
      rw [if_neg (by omega)]
      have h2 := ih (List.chain'_cons.mp hchain).2
        (fun i hi => hbound i (List.mem_cons_of_mem _ hi))
        (sizes.set cur (dso + (tensors.getD nxt default).offset
          - (dso + (tensors.getD cur default).offset)))
      simpa only [loaderLoop, hadd2] using h2

/-- C3 (amended): the loader's size-from-offsets pass sorts the tensor
directory by offset before taking adjacent differences, so non-monotonic
file order does NOT fail construction: given the invariant established by
`parse` (every absolute tensor offset fits in the file), the estimator always
succeeds and the dead `NonMonotonicOffsets` re-check never fires. -/
theorem c3_loader_sorts_never_fails (tensors : List TensorInfo) (dso size : Nat)
    (hsize : size ≤ U64 - 1)
    (hfit : ∀ t ∈ tensors, dso + t.offset ≤ size) :
    (tensor_size_from_offsets tensors dso size).isOk = true := by
  unfold tensor_size_from_offsets
  apply loaderLoop_ok tensors dso size hsize _ (sortByOffset_chain tensors _)
  intro i hi
  have hir : i ∈ List.range tensors.length := sortByOffset_mem tensors _ i hi
  have hlt : i < tensors.length := List.mem_range.mp hir
  have hget : tensors.getD i default = tensors[i] := List.getD_eq_getElem tensors default hlt
  rw [hget]
  exact hfit _ (List.getElem_mem hlt)

/-- Witness for C3 on the non-monotonic directory `c3Tensors`. -/
theorem c3_witness : (tensor_size_from_offsets c3Tensors 0 128).isOk = true :=
  c3_loader_sorts_never_fails c3Tensors 0 128 (by decide) (by decide)

/-- Auxiliary: scaling a list by zero yields all zeros. -/
theorem map_mul_zero (l : List ℚ) :
    (l.map fun e => e * (0 : ℚ)) = List.replicate l.length 0 := by
  induction l with
  | nil => rfl
  | cons a l ih => simp [ih, List.replicate_succ]

/-- C9: `softmax_inplace_f32` with `n = 0` returns the buffer unchanged, and
whenever the sum of the exponentials of the max-shifted inputs is zero (as
happens in f32 when every `exp` underflows), every output element is zero. -/
theorem c9_softmax_edge_cases :
    (∀ (expF : ℚ → ℚ) (x : List ℚ), softmax_inplace_f32 expF x 0 = x)
  ∧ (∀ (expF : ℚ → ℚ) (x0 : ℚ) (rest : List ℚ),
      ((x0 :: rest).map fun v => expF (v - rest.foldl max x0)).sum = 0 →
      softmaxList expF (x0 :: rest) = List.replicate (rest.length + 1) 0) := by
  constructor
  · intro expF x
    simp [softmax_inplace_f32]
  · intro expF x0 rest hsum
    simp only [softmaxList]
    rw [hsum]
    rw [if_neg (by norm_num)]
    rw [map_mul_zero]
    simp

/-- Witness for C9: the constant-zero exponential on `[1, 2]`. -/
theorem c9_witness :
    softmax_inplace_f32 (fun _ => (0 : ℚ)) [5, 7] 0 = [5, 7]
  ∧ softmaxList (fun _ => (0 : ℚ)) [1, 2] = [0, 0] :=
  ⟨c9_softmax_edge_cases.1 (fun _ => (0 : ℚ)) [5, 7], by
    have := c9_softmax_edge_cases.2 (fun _ => (0 : ℚ)) 1 [2] (by simp)
    simpa using this⟩

/-- C7: RoPE `apply_inplace` at `pos = 0` is the identity (each pair is
rotated by angle `0·inv_freq = 0`), and at every position the rotation
preserves the squared norm of each rotated pair exactly in the real-valued
model (hence within any ε at the float level). -/
theorem c7_rope_identity_unitary (invFreq : Nat → ℝ) (ropeDim headDim nHeads pos : Nat)
    (x : Nat → ℝ) (h0 : ropeDim ≠ 0) (hle : ropeDim ≤ headDim) (hev : ropeDim % 2 = 0) :
    (apply_inplace invFreq ropeDim headDim nHeads 0 x = .ok x)
  ∧ (∀ (y : Nat → ℝ), apply_inplace invFreq ropeDim headDim nHeads pos x = .ok y →
      ∀ hh i, hh < nHeads → 2 * i + 1 < ropeDim →
        y (hh * headDim + 2 * i) ^ 2 + y (hh * headDim + 2 * i + 1) ^ 2
          = x (hh * headDim + 2 * i) ^ 2 + x (hh * headDim + 2 * i + 1) ^ 2) := by
  have hguards : ∀ p : Nat, apply_inplace invFreq ropeDim headDim nHeads p x
      = .ok (ropeRotate invFreq p ropeDim headDim nHeads x) := by
    intro p
    unfold apply_inplace
    rw [if_neg h0, if_neg (by omega), if_neg (by omega)]
  constructor
  · rw [hguards 0]
    congr 1
    funext j
    simp only [ropeRotate]
    by_cases hcond : j / headDim < nHeads ∧ j % headDim < ropeDim
    · rw [if_pos hcond]
      by_cases hr : j % headDim % 2 = 0
      · simp [hr, Real.cos_zero, Real.sin_zero]
      · simp [hr, Real.cos_zero, Real.sin_zero]
    · rw [if_neg hcond]
  · intro y hy hh i hhlt hilt
    rw [hguards pos] at hy
    have hy2 : y = ropeRotate invFreq pos ropeDim headDim nHeads x := by
      cases hy
      rfl
    subst hy2
    have hhd : 0 < headDim := by omega
    have hdiv0 : (hh * headDim + 2 * i) / headDim = hh := by
      rw [Nat.mul_comm hh headDim, Nat.mul_add_div hhd, Nat.div_eq_of_lt (by omega)]
      omega
    have hmod0 : (hh * headDim + 2 * i) % headDim = 2 * i := by
      rw [Nat.mul_comm hh headDim, Nat.mul_add_mod, Nat.mod_eq_of_lt (by omega)]
    have hdiv1 : (hh * headDim + 2 * i + 1) / headDim = hh := by
      rw [Nat.add_assoc, Nat.mul_comm hh headDim, Nat.mul_add_div hhd,
        Nat.div_eq_of_lt (by omega)]
      omega
    have hmod1 : (hh * headDim + 2 * i + 1) % headDim = 2 * i + 1 := by
      rw [Nat.add_assoc, Nat.mul_comm hh headDim, Nat.mul_add_mod,
        Nat.mod_eq_of_lt (by omega)]
    have e0 : ropeRotate invFreq pos ropeDim headDim nHeads x (hh * headDim + 2 * i)
        = x (hh * headDim + 2 * i) * Real.cos ((pos : ℝ) * invFreq i)
          - x (hh * headDim + 2 * i + 1) * Real.sin ((pos : ℝ) * invFreq i) := by
      simp only [ropeRotate, hdiv0, hmod0]
      rw [if_pos (⟨hhlt, by omega⟩ : hh < nHeads ∧ 2 * i < ropeDim)]
      rw [if_pos (show 2 * i % 2 = 0 by omega)]
      rw [show 2 * i / 2 = i from by omega]
    have e1 : ropeRotate invFreq pos ropeDim headDim nHeads x (hh * headDim + 2 * i + 1)
        = x (hh * headDim + 2 * i) * Real.sin ((pos : ℝ) * invFreq i)
          + x (hh * headDim + 2 * i + 1) * Real.cos ((pos : ℝ) * invFreq i) := by
      simp only [ropeRotate, hdiv1, hmod1]
      rw [if_pos (⟨hhlt, hilt⟩ : hh < nHeads ∧ 2 * i + 1 < ropeDim)]
      rw [if_neg (show ¬ (2 * i + 1) % 2 = 0 by omega)]
      rw [show (2 * i + 1) / 2 = i from by omega]
      rw [show hh * headDim + 2 * i + 1 - 1 = hh * headDim + 2 * i from by omega]
    rw [e0, e1]
    have hcs := Real.sin_sq_add_cos_sq ((pos : ℝ) * invFreq i)
    set a := x (hh * headDim + 2 * i)
    set b := x (hh * headDim + 2 * i + 1)
    set c := Real.cos ((pos : ℝ) * invFreq i)
    set sn := Real.sin ((pos : ℝ) * invFreq i)
    linear_combination (a ^ 2 + b ^ 2) * hcs

/-- Witness for C7 with `rope_dim = head_dim = 2`, one head, position 5. -/
theorem c7_witness :
    (apply_inplace (fun _ => (0 : ℝ)) 2 2 1 0 (fun _ => 1) = .ok (fun _ => 1))
  ∧ (∀ (y : Nat → ℝ), apply_inplace (fun _ => (0 : ℝ)) 2 2 1 5 (fun _ => 1) = .ok y →
      ∀ hh i, hh < 1 → 2 * i + 1 < 2 →
        y (hh * 2 + 2 * i) ^ 2 + y (hh * 2 + 2 * i + 1) ^ 2
          = (fun _ => (1 : ℝ)) (hh * 2 + 2 * i) ^ 2
            + (fun _ => (1 : ℝ)) (hh * 2 + 2 * i + 1) ^ 2) :=
  c7_rope_identity_unitary (fun _ => (0 : ℝ)) 2 2 1 5 (fun _ => 1)
    (by decide) (by decide) (by decide)

/-- C8: the attention stage of the layer step routes query head `h` to KV
head `h / (n_heads / n_kv_heads)` (integer floor division): the output of
head `h` is unchanged under any modification of the key/value caches away
from that KV head, and for `n_heads = 4, n_kv_heads = 2` the routing sends
heads 0 and 1 to KV head 0 and heads 2 and 3 to KV head 1. -/
theorem c8_gqa_routing (nHeads nKvHeads headDim pos : Nat) (q : Nat → ℝ)
    (kC kC' vC vC' : Nat → Nat → Nat → ℝ) (h : Nat)
    (hk : ∀ t i, t ≤ pos → kC (kvHeadOf nHeads nKvHeads h) t i
        = kC' (kvHeadOf nHeads nKvHeads h) t i)
    (hv : ∀ t i, t ≤ pos → vC (kvHeadOf nHeads nKvHeads h) t i
        = vC' (kvHeadOf nHeads nKvHeads h) t i) :
    (attnHeadOut nHeads nKvHeads headDim pos q kC vC h
      = attnHeadOut nHeads nKvHeads headDim pos q kC' vC' h)
  ∧ (kvHeadOf 4 2 0 = 0 ∧ kvHeadOf 4 2 1 = 0 ∧ kvHeadOf 4 2 2 = 1
      ∧ kvHeadOf 4 2 3 = 1) := by
  refine ⟨?_, by decide, by decide, by decide, by decide⟩
  simp only [attnHeadOut]
  have hkfun : ∀ t, t ≤ pos → kC (kvHeadOf nHeads nKvHeads h) t
      = kC' (kvHeadOf nHeads nKvHeads h) t := by
    intro t ht
    funext i
    exact hk t i ht
  have hprobs :
      ((List.range (pos + 1)).map fun t =>
        dotF headDim (fun i => q (h * headDim + i)) (kC (kvHeadOf nHeads nKvHeads h) t)
          * (1 / Real.sqrt (headDim : ℝ)))
      = (List.range (pos + 1)).map fun t =>
        dotF headDim (fun i => q (h * headDim + i)) (kC' (kvHeadOf nHeads nKvHeads h) t)
          * (1 / Real.sqrt (headDim : ℝ)) := by
    apply List.map_congr_left
    intro t ht
    rw [hkfun t (Nat.lt_succ_iff.mp (List.mem_range.mp ht))]
  rw [hprobs]
  funext i
  apply Finset.sum_congr rfl
  intro t ht
  rw [hv t i (Nat.lt_succ_iff.mp (Finset.mem_range.mp ht))]

/-- Witness for C8 with the 4-head / 2-KV-head configuration. -/
theorem c8_witness :
    (attnHeadOut 4 2 8 0 (fun _ => 0) (fun _ _ _ => 0) (fun _ _ _ => 0) 2
      = attnHeadOut 4 2 8 0 (fun _ => 0) (fun _ _ _ => 0) (fun _ _ _ => 0) 2)
  ∧ (kvHeadOf 4 2 0 = 0 ∧ kvHeadOf 4 2 1 = 0 ∧ kvHeadOf 4 2 2 = 1
      ∧ kvHeadOf 4 2 3 = 1) :=
  c8_gqa_routing 4 2 8 0 (fun _ => 0) (fun _ _ _ => 0) (fun _ _ _ => 0)
    (fun _ _ _ => 0) (fun _ _ _ => 0) 2
    (fun _ _ _ => rfl) (fun _ _ _ => rfl)

/-- Auxiliary: `getD` on a replicated list. -/
theorem getD_replicate_of_lt {α : Type} (n i : Nat) (a d : α) (hi : i < n) :
    (List.replicate n a).getD i d = a := by
  simp [List.getD, List.getElem?_replicate_of_lt hi]

/-- Auxiliary: a map over `range n` whose values are constant. -/
theorem map_range_const {β : Type} (n : Nat) (f : Nat → β) (b : β)
    (h : ∀ l, l < n → f l = b) : (List.range n).map f = List.replicate n b := by
  induction n with
  | zero => rfl
  | succ n ih =>
    rw [List.range_succ, List.map_append, ih (fun l hl => h l (by omega))]
    simp [h n (by omega), List.replicate_succ']

theorem f16ValQ_one : f16ValQ 0x3C00 = 1 := by
  have hb : fp16_to_fp32 0x3C00 = 0x3F800000 := by decide
  have h1 : (0x3F800000 : Nat) >>> 31 = 0 := by decide
  have h2 : f32MagUnits 0x3F800000 = 2 ^ 149 := by decide
  unfold f16ValQ f32ValQ
  rw [hb, h2, h1]
  push_cast
  norm_num

theorem f16ValQ_zero : f16ValQ 0 = 0 := by
  have hb : fp16_to_fp32 0 = 0 := by decide
  have h2 : f32MagUnits 0 = 0 := by decide
  unfold f16ValQ f32ValQ
  rw [hb, h2]
  norm_num

/-- C5: dequantizing the crafted Q4_K block (`d = 1.0`, `dmin = 0`, scale
bytes all 1, nibble bytes all `0x10`) yields exactly 256 floats forming 32
zeros then 32 ones, repeated four times. -/
theorem c5_q4k_block_pattern :
    dequantize_row_q4_k [c5Block] 256 = .ok c5Pattern := by
  have hsm : ∀ j, j < 8 → get_scale_min_k4 j (List.replicate 12 1)
      = (1, if j < 4 then 1 else 0) := by decide
  unfold dequantize_row_q4_k
  rw [if_neg (by decide)]
  congr 1
  have hr1 : (256 : Nat) / QK_K = 1 := by decide
  rw [hr1]
  rw [show List.range 1 = [0] from by decide]
  simp only [List.map_cons, List.map_nil, List.flatten_cons, List.flatten_nil,
    List.append_nil]
  rw [show List.getD [c5Block] 0 default = c5Block from rfl]
  unfold dequantQ4KBlock c5Pattern
  simp only [c5Block, f16ValQ_one, f16ValQ_zero]
  congr 1
  apply map_range_const
  intro g hg
  have hlow : ∀ l, l < 32 →
      (1 : ℚ) * ((get_scale_min_k4 (2 * g) (List.replicate 12 1)).1 : ℚ)
          * (((List.replicate 128 0x10).getD (32 * g + l) 0 &&& 0xF : Nat) : ℚ)
        - (0 : ℚ) * ((get_scale_min_k4 (2 * g) (List.replicate 12 1)).2 : ℚ) = 0 := by
    intro l hl
    rw [getD_replicate_of_lt 128 (32 * g + l) 0x10 0 (by omega)]
    rw [show (0x10 &&& 0xF : Nat) = 0 from by decide]
    norm_num
  have hhigh : ∀ l, l < 32 →
      (1 : ℚ) * ((get_scale_min_k4 (2 * g + 1) (List.replicate 12 1)).1 : ℚ)
          * (((List.replicate 128 0x10).getD (32 * g + l) 0 >>> 4 : Nat) : ℚ)
        - (0 : ℚ) * ((get_scale_min_k4 (2 * g + 1) (List.replicate 12 1)).2 : ℚ) = 1 := by
    intro l hl
    rw [getD_replicate_of_lt 128 (32 * g + l) 0x10 0 (by omega)]
    rw [show (0x10 >>> 4 : Nat) = 1 from by decide]
    rw [hsm (2 * g + 1) (by omega)]
    norm_num
  rw [map_range_const 32 _ (0 : ℚ) hlow, map_range_const 32 _ (1 : ℚ) hhigh]

end Cieft
